import Mathlib

/-!
Shallow embedding of the Employee Directory Cache of this repository
(the Google Apps Script module holding `loadData`, `getEmployee`, `getEmployees`,
`getDepartment`, `getDepartments`, `getDepartmentByName` and `doGet`).

Modelling conventions:
* The two module-level `Map`s (`employeeData`, `departments`) are modelled as
  insertion-ordered association lists (`List (key × value)`), matching the
  iteration order of a JavaScript `Map`.  `Map.set` replaces in place when the
  key exists and appends otherwise; `Map.get` returns the first match.
* JavaScript numbers are modelled exactly: every arithmetic expression the code
  evaluates on this data (epoch milliseconds, counts, `Math.floor`/`Math.round`
  of quotients) is integer-valued or a rational with a small fixed denominator,
  so IEEE doubles represent the intermediate values faithfully at the program's
  scales.  `Math.floor(x)` is `Int.floor`, `Math.round(x)` is `⌊x + 1/2⌋`.
  `30.44 = 761/25` and `365.25 = 1461/4` exactly, also as doubles' rounded
  products with `MS_PER_DAY` at the magnitudes involved.
* Dates are epoch milliseconds (`Int`); `Date` parsing of the report strings is
  abstracted.  A falsy `profiles_departure_date` (absent or empty string) is
  `none`.  The other profile columns (names, emails, codes the report always
  carries) are modelled as total `String` fields.
* A field the code may leave `undefined` is an `Option`: the department code of
  an employee, the `id`/`name`/`totalTenureInMonths`/`averageTenureInMonths` of
  a department record (the synthetic `'all'` record has no `id`, no total and no
  average), and the `reportsToCount` of an employee before the second load pass.
  A `NaN` produced by arithmetic on an `undefined` field (the average of a
  record with no total, or a `0/0` average) is modelled as `none`.
* A row of the report that makes the load loop throw (e.g. a `null` row, whose
  indexing raises a `TypeError`) is `RowItem.bad`; the fetch/JSON.parse stage is
  the `Except String` argument of `loadData`.
* Exceptions thrown inside a routed handler are `Response.thrownR` and are
  turned into an `{error, status: 500}` payload by `doGet`'s catch, exactly as
  in the source.  `JSON.stringify`/`ContentService` serialisation is abstracted:
  responses are modelled as structured values.
-/

namespace EmployeeDirectory

/-! ## Association-list model of a JavaScript `Map` -/

/-- `m.any (p.1 = k)`: does the map hold the key? -/
def mapHasKey [DecidableEq κ] (m : List (κ × α)) (k : κ) : Bool :=
  m.any (fun p => p.1 = k)

/-- Replace the entry at key `k` by `(k, v)`, leaving other entries alone. -/
def replaceIf [DecidableEq κ] (k : κ) (v : α) (p : κ × α) : κ × α :=
  if p.1 = k then (k, v) else p

/-- JavaScript `Map.prototype.set`: in-place update when the key exists
(keeping its position), append otherwise. -/
def mapSet [DecidableEq κ] (m : List (κ × α)) (k : κ) (v : α) : List (κ × α) :=
  if mapHasKey m k then m.map (replaceIf k v) else m ++ [(k, v)]

/-- JavaScript `Map.prototype.get` (`none` models `undefined`). -/
def mapGet [DecidableEq κ] (m : List (κ × α)) (k : κ) : Option α :=
  (m.find? (fun p => p.1 = k)).map (fun p => p.2)

/-- `Array.from(m.values())`: the values in insertion order. -/
def mapValues (m : List (κ × α)) : List α :=
  m.map (fun p => p.2)

/-- The keys of the map, in insertion order. -/
def mapKeys (m : List (κ × α)) : List κ :=
  m.map (fun p => p.1)

/-- The well-formedness invariant every reachable `Map` satisfies:
no key occurs twice. -/
def nodupKeys [DecidableEq κ] (m : List (κ × α)) : Prop :=
  (mapKeys m).Nodup

/-! ## JavaScript string and number helpers used by the module -/

/-- Lowercasing, modelling `String.prototype.toLowerCase` (the data the module
compares is ASCII). -/
def strLower (s : String) : String :=
  String.mk (s.data.map Char.toLower)

/-- Is `pre` a leading run of `l`? (list-level `String.prototype.startsWith`). -/
def listLeads [DecidableEq α] : List α → List α → Bool
  | [], _ => true
  | _ :: _, [] => false
  | a :: as, b :: bs => a = b && listLeads as bs

/-- Does `hay` contain `needle` as a contiguous run?
(`String.prototype.includes`). -/
def listHasRun [DecidableEq α] (needle : List α) : List α → Bool
  | [] => listLeads needle []
  | c :: t => listLeads needle (c :: t) || listHasRun needle t

/-- `String.prototype.startsWith`. -/
def strStartsWith (s pre : String) : Bool :=
  listLeads pre.data s.data

/-- `String.prototype.includes`. -/
def strIncludes (hay needle : String) : Bool :=
  listHasRun needle.data hay.data

/-- `String.prototype.substring(n)` (the module only slices ASCII routes, so
code units and characters coincide). -/
def strDrop (s : String) (n : Nat) : String :=
  String.mk (s.data.drop n)

/-- The whitespace characters `Number(string)` strips. -/
def isWsChar (c : Char) : Bool :=
  c = ' ' || c = '\t' || c = '\n' || c = '\r' || c = '\x0b' || c = '\x0c'

/-- Strip leading and trailing whitespace. -/
def trimWs (l : List Char) : List Char :=
  ((l.dropWhile isWsChar).reverse.dropWhile isWsChar).reverse

/-- A hexadecimal digit. -/
def isHexDigitCh (c : Char) : Bool :=
  c.isDigit || ('a' ≤ c && c ≤ 'f') || ('A' ≤ c && c ≤ 'F')

/-- A nonempty run of decimal digits. -/
def digitsNE (l : List Char) : Bool :=
  !l.isEmpty && l.all Char.isDigit

/-- An optionally signed nonempty run of decimal digits. -/
def signedDigitsNE : List Char → Bool
  | '+' :: r => digitsNE r
  | '-' :: r => digitsNE r
  | r => digitsNE r

/-- The optional exponent tail of an ECMAScript decimal literal. -/
def expTail : List Char → Bool
  | [] => true
  | 'e' :: r => signedDigitsNE r
  | 'E' :: r => signedDigitsNE r
  | _ => false

/-- An unsigned ECMAScript decimal literal: `digits [. digits] [exp]` or
`. digits [exp]`. -/
def decimalLit (l : List Char) : Bool :=
  let intPart := l.takeWhile Char.isDigit
  let rest := l.dropWhile Char.isDigit
  match rest with
  | '.' :: r2 =>
    let frac := r2.takeWhile Char.isDigit
    let r3 := r2.dropWhile Char.isDigit
    (!intPart.isEmpty || !frac.isEmpty) && expTail r3
  | _ => !intPart.isEmpty && expTail rest

/-- A radix literal `0x…`/`0b…`/`0o…` (no sign allowed in front). -/
def radixLit : List Char → Bool
  | '0' :: 'x' :: r => !r.isEmpty && r.all isHexDigitCh
  | '0' :: 'X' :: r => !r.isEmpty && r.all isHexDigitCh
  | '0' :: 'b' :: r => !r.isEmpty && r.all (fun c => c = '0' || c = '1')
  | '0' :: 'B' :: r => !r.isEmpty && r.all (fun c => c = '0' || c = '1')
  | '0' :: 'o' :: r => !r.isEmpty && r.all (fun c => '0' ≤ c && c ≤ '7')
  | '0' :: 'O' :: r => !r.isEmpty && r.all (fun c => '0' ≤ c && c ≤ '7')
  | _ => false

/-- An unsigned decimal literal or `Infinity`. -/
def decOrInf (l : List Char) : Bool :=
  decide (l = "Infinity".data) || decimalLit l

/-- The optionally signed body of a numeric string. -/
def signedDecOrInf : List Char → Bool
  | '+' :: r => decOrInf r
  | '-' :: r => decOrInf r
  | r => decOrInf r

/-- `!isNaN(s)` for a string: does `Number(s)` yield a number (ECMAScript
`StringNumericLiteral` grammar — empty/whitespace coerces to `0`)? -/
def jsStringIsNum (s : String) : Bool :=
  match trimWs s.data with
  | [] => true
  | t => radixLit t || signedDecOrInf t

/-- `param || 'false'`: the default applied to the `includePastEmployees` and
`includeDirectReports` query parameters (absent and `""` are falsy). -/
def jsOrFalse : Option String → String
  | none => "false"
  | some s => if s = "" then "false" else s

/-! ## Numeric constants and derived-attribute arithmetic -/

/-- `MS_PER_DAY = 1000 * 60 * 60 * 24`. -/
def MS_PER_DAY : Int := 86400000

/-- `Math.floor(diffInMs / (MS_PER_DAY * DAYS_PER_MONTH))` with
`DAYS_PER_MONTH = 30.44 = 761/25`: since `MS_PER_DAY * 30.44 = 65750400000/25`,
the floor equals the floored division of `25 * diffInMs` by `65750400000`
(proved exact in `tenureMonthsOf_spec`). -/
def tenureMonthsOf (diffInMs : Int) : Int :=
  Int.fdiv (25 * diffInMs) 65750400000

/-- `Math.floor(diffInMs / (MS_PER_DAY * DAYS_PER_YEAR))` with
`DAYS_PER_YEAR = 365.25`: `MS_PER_DAY * 365.25 = 31557600000` exactly. -/
def tenureYearsOf (diffInMs : Int) : Int :=
  Int.fdiv diffInMs 31557600000

/-- `Math.round(t / n)` for integers with `n > 0` in every reachable use:
`round(x) = ⌊x + 1/2⌋`, and `⌊t/n + 1/2⌋ = ⌊(2t+n)/(2n)⌋`
(proved exact in `jsRoundDiv_spec`). -/
def jsRoundDiv (t n : Int) : Int :=
  Int.fdiv (2 * t + n) (2 * n)

/-- The claim's tenure-in-months formula, written as in the specification:
`floor((end - start) / (msPerDay * 30.44))` over exact rationals. -/
def specTenureMonths (diffInMs : Int) : Int :=
  ⌊(diffInMs : ℚ) / ((86400000 : ℚ) * (30.44 : ℚ))⌋

/-- The claim's tenure-in-years formula:
`floor((end - start) / (msPerDay * 365.25))` over exact rationals. -/
def specTenureYears (diffInMs : Int) : Int :=
  ⌊(diffInMs : ℚ) / ((86400000 : ℚ) * (365.25 : ℚ))⌋

/-! ## Data model -/

/-- One pivoted row of the Namely report: the raw column values `loadData`
reads.  Date columns are already parsed to epoch milliseconds; the department
code `profiles_category_200009617` is `none` when the column is `undefined`. -/
structure RawRow where
  profiles_guid : String
  profiles_first_name : String
  profiles_last_name : String
  profiles_email : String
  profiles_job_title : String
  profiles_user_status : String
  profiles_employee_type : String
  profiles_reports_to_email : String
  profiles_start_date : Int
  profiles_departure_date : Option Int
  profiles_category_200009617 : Option String
  profiles_category_200009618 : String
  profiles_office_address1 : String
deriving DecidableEq, Repr

/-- An employee record in the snapshot: the raw columns plus the derived
attributes.  `reportsToCount` is `none` (`undefined`) until the second load
pass assigns it. -/
structure Employee extends RawRow where
  tenureInMonths : Int
  tenureInYears : Int
  reportsToCount : Option Nat
deriving DecidableEq, Repr

/-- A department record.  The synthetic `'all'` record is created with only
`departmentHeadcount` and `name`, so `id`, `totalTenureInMonths` and
`averageTenureInMonths` are `Option`s (`none` = `undefined`; a `NaN` average is
also `none`). -/
structure Department where
  id : Option String
  name : Option String
  departmentHeadcount : Int
  totalTenureInMonths : Option Int
  averageTenureInMonths : Option Int
deriving DecidableEq, Repr

/-- The two module-level maps. -/
structure CacheState where
  employeeData : List (String × Employee)
  departments : List (Option String × Department)
deriving DecidableEq, Repr

/-- The state before anything is loaded. -/
def emptyState : CacheState :=
  { employeeData := [], departments := [] }

/-- One element of `report.content`: either a row the pivot loop handles, or a
malformed row (e.g. `null`) whose indexing throws with the given message. -/
inductive RowItem where
  | ok (r : RawRow)
  | bad (msg : String)
deriving DecidableEq, Repr

/-- `loadData`'s result: `true` on success, the `{error, status: 500}` object
on a caught exception. -/
inductive LoadResult where
  | success
  | failure (msg : String)
deriving DecidableEq, Repr

/-! ## The loader -/

/-- The body of the pivot loop for one row: build the employee object and its
tenure attributes (`endDate` is the departure date if present, else the
load-time instant `now`). -/
def mkEmployee (r : RawRow) (now : Int) : Employee :=
  { toRawRow := r
    tenureInMonths := tenureMonthsOf (r.profiles_departure_date.getD now - r.profiles_start_date)
    tenureInYears := tenureYearsOf (r.profiles_departure_date.getD now - r.profiles_start_date)
    reportsToCount := none }

/-- The first load pass: `employeeData.set(guid, employee)` row by row.  A bad
row throws, so later rows are not processed; the rows already inserted stay in
the map (the source mutates the shared map in place).  Returns the map after
the loop together with the error message when a row threw. -/
def insRows (m : List (String × Employee)) (items : List RowItem) (now : Int) :
    List (String × Employee) × Option String :=
  match items with
  | [] => (m, none)
  | .ok r :: rest => insRows (mapSet m r.profiles_guid (mkEmployee r now)) rest now
  | .bad msg :: _ => (m, some msg)

/-- `calculateReportsTo`: count the employees whose manager email strictly
equals (`===`) the given email.  (The source first re-fetches the employee by
guid and returns `0` on a miss; the pass only ever passes guids of employees
it is iterating over, so that branch is dead and the scan reduces to this
count over the employee's own email.) -/
def countReports (m : List (String × Employee)) (email : String) : Nat :=
  (mapValues m).countP (fun e2 => decide (e2.profiles_reports_to_email = email))

/-- The second load pass: set every employee's `reportsToCount`.  The source
assigns in place while iterating; since the scan only reads email fields, which
the pass never changes, assigning into a copy of the pre-pass map is the same
function. -/
def reportsPass (m : List (String × Employee)) : List (String × Employee) :=
  m.map (fun p => (p.1, { p.2 with reportsToCount := some (countReports m p.2.profiles_email) }))

/-- `undefined + x` is `NaN` (`none`), `t + x` is ordinary addition: the
`totalTenureInMonths += tenureInMonths` accumulation. -/
def incTenure : Option Int → Int → Option Int
  | none, _ => none
  | some t, x => some (t + x)

/-- The fresh record the third pass creates for a new department code
(headcount 0, total 0, `id` and `name` both the code). -/
def freshDept (k : Option String) : Department :=
  { id := k, name := k, departmentHeadcount := 0,
    totalTenureInMonths := some 0, averageTenureInMonths := none }

/-- `if (!departments.has(id)) departments.set(id, freshDept)`. -/
def bucketEnsure (dm : List (Option String × Department)) (k : Option String) :
    List (Option String × Department) :=
  if mapHasKey dm k then dm else mapSet dm k (freshDept k)

/-- The third-pass body for one employee: ensure the record exists, then
increment its headcount and total in place. -/
def bucketPair (dm : List (Option String × Department)) (p : Option String × Int) :
    List (Option String × Department) :=
  match mapGet (bucketEnsure dm p.1) p.1 with
  | some d => mapSet (bucketEnsure dm p.1) p.1
      { d with departmentHeadcount := d.departmentHeadcount + 1,
               totalTenureInMonths := incTenure d.totalTenureInMonths p.2 }
  | none => bucketEnsure dm p.1

/-- The projection the third pass reads from each employee. -/
def empDeptTenure (m : List (String × Employee)) : List (Option String × Int) :=
  (mapValues m).map (fun e => (e.profiles_category_200009617, e.tenureInMonths))

/-- The third load pass over all employees. -/
def bucketAll (dm : List (Option String × Department)) (ps : List (Option String × Int)) :
    List (Option String × Department) :=
  ps.foldl bucketPair dm

/-- `Math.round(totalTenureInMonths / departmentHeadcount)`.  An `undefined`
total gives `NaN`; a `0` headcount gives `0/0 = NaN` (the total is then also
`0` in every reachable state, and an unreachable `t/0` infinity is collapsed to
`none` as well). -/
def computeAvg (d : Department) : Option Int :=
  match d.totalTenureInMonths with
  | none => none
  | some t => if d.departmentHeadcount = 0 then none else some (jsRoundDiv t d.departmentHeadcount)

/-- The fourth load pass: set every department's `averageTenureInMonths`. -/
def avgPass (dm : List (Option String × Department)) : List (Option String × Department) :=
  dm.map (fun p => (p.1, { p.2 with averageTenureInMonths := computeAvg p.2 }))

/-- The total-headcount accumulation over all department records (including a
surviving `'all'` record from an earlier load, as in the source). -/
def deptHcSum (dm : List (Option String × Department)) : Int :=
  ((mapValues dm).map (fun d => d.departmentHeadcount)).sum

/-- The synthetic `'all'` record: only `departmentHeadcount` and `name`. -/
def allRecord (total : Int) : Department :=
  { id := none, name := some "All Departments", departmentHeadcount := total,
    totalTenureInMonths := none, averageTenureInMonths := none }

/-- Department-map pipeline of the third and fourth passes plus the `'all'`
insertion, over the employee map the second pass produced. -/
def deptPasses (dm : List (Option String × Department)) (m2 : List (String × Employee)) :
    List (Option String × Department) :=
  mapSet (avgPass (bucketAll dm (empDeptTenure m2))) (some "all")
    (allRecord (deptHcSum (avgPass (bucketAll dm (empDeptTenure m2)))))

/-- The passes that run after all rows inserted without an exception. -/
def commitPasses (st : CacheState) (m1 : List (String × Employee)) : CacheState :=
  { employeeData := reportsPass m1
    departments := deptPasses st.departments (reportsPass m1) }

/-- The body of `loadData` once the report rows are in hand: insert the rows,
and either stop at the first throwing row (the rows already inserted stay in
the shared map — the source has no rollback) or run the remaining passes. -/
def loadDataRows (st : CacheState) (items : List RowItem) (now : Int) :
    CacheState × LoadResult :=
  match (insRows st.employeeData items now).2 with
  | some msg =>
    ({ st with employeeData := (insRows st.employeeData items now).1 },
     .failure ("Failed to load employee data: " ++ msg))
  | none => (commitPasses st (insRows st.employeeData items now).1, .success)

/-- `loadData`.  The fetch/parse stage is the `Except` argument (an `error` is
a throw before any mutation).  On a throw the catch returns the
`{error: "Failed to load employee data: …", status: 500}` object.  The
`lastRefresh` script property is outside the modelled state. -/
def loadData (st : CacheState) (fetch : Except String (List RowItem)) (now : Int) :
    CacheState × LoadResult :=
  match fetch with
  | .error msg => (st, .failure ("Failed to load employee data: " ++ msg))
  | .ok items => loadDataRows st items now

/-! ## Requests and responses -/

/-- The query parameters of a request (`e.parameter`); `e.pathInfo` is
carried alongside for `doGet`.  `emailPref` models the `emailPrefix`
parameter. -/
structure Request where
  pathInfo : Option String
  employeeId : Option String
  departmentName : Option String
  includeDirectReports : Option String
  includePastEmployees : Option String
  firstName : Option String
  lastName : Option String
  emailPref : Option String
  departmentId : Option String
  recentHire : Option String
deriving DecidableEq, Repr

/-- A request with every parameter absent. -/
def emptyRequest : Request :=
  { pathInfo := none, employeeId := none, departmentName := none,
    includeDirectReports := none, includePastEmployees := none,
    firstName := none, lastName := none, emailPref := none,
    departmentId := none, recentHire := none }

/-- One element of a `directReports` list. -/
structure DirectReport where
  id : String
  firstName : String
  lastName : String
deriving DecidableEq, Repr

/-- The employee payload shape shared by `getEmployee` and `getEmployees`
(the nested `department: {id, name}` object is flattened into the two
fields). -/
structure EmployeeResponse where
  id : String
  firstName : String
  lastName : String
  email : String
  jobTitle : String
  userStatus : String
  departmentId : Option String
  departmentName : Option String
  employeeType : String
  reportsToEmail : String
  startDate : Int
  division : String
  officeLocation : String
  tenureInMonths : Int
  tenureInYears : Int
  reportsToCount : Option Nat
  directReports : Option (List DirectReport)
deriving DecidableEq, Repr

/-- The department payload shape. -/
structure DepartmentResponse where
  id : Option String
  name : Option String
  departmentHeadcount : Int
  averageTenureInMonths : Option Int
deriving DecidableEq, Repr

/-- A handler's return value.  `errorWithIdR` is `getEmployee`'s
`{error, employeeId, status}` object; `thrownR` is an exception escaping the
handler (caught by `doGet`). -/
inductive Response where
  | employeeR (e : EmployeeResponse)
  | employeesR (l : List EmployeeResponse)
  | departmentR (d : DepartmentResponse)
  | departmentsR (l : List DepartmentResponse)
  | errorR (msg : String) (status : Nat)
  | errorWithIdR (msg : String) (employeeId : Option String) (status : Nat)
  | thrownR (msg : String)
deriving DecidableEq, Repr

/-- The `status` field of an `{error, status}` payload, `none` otherwise. -/
def respStatus : Response → Option Nat
  | .errorR _ s => some s
  | .errorWithIdR _ _ s => some s
  | _ => none

/-! ## The query service -/

/-- The field mapping shared by `getEmployee` and `getEmployees`. -/
def empToResponse (emp : Employee) : EmployeeResponse :=
  { id := emp.profiles_guid
    firstName := emp.profiles_first_name
    lastName := emp.profiles_last_name
    email := emp.profiles_email
    jobTitle := emp.profiles_job_title
    userStatus := emp.profiles_user_status
    departmentId := emp.profiles_category_200009617
    departmentName := emp.profiles_category_200009617
    employeeType := emp.profiles_employee_type
    reportsToEmail := emp.profiles_reports_to_email
    startDate := emp.profiles_start_date
    division := emp.profiles_category_200009618
    officeLocation := emp.profiles_office_address1
    tenureInMonths := emp.tenureInMonths
    tenureInYears := emp.tenureInYears
    reportsToCount := emp.reportsToCount
    directReports := none }

/-- `getDirectReports`: active employees whose manager email strictly equals
the given email. -/
def getDirectReports (m : List (String × Employee)) (managerEmail : String) :
    List DirectReport :=
  ((mapValues m).filter (fun emp =>
      decide (emp.profiles_reports_to_email = managerEmail
        ∧ emp.profiles_departure_date = none))).map
    (fun r => { id := r.profiles_guid, firstName := r.profiles_first_name,
                lastName := r.profiles_last_name })

/-- `getEmployee(e)`.  The handlers are state transformers `CacheState →
CacheState × Response`; this one never writes the maps, so it returns the
state unchanged, as in the source.  `Map.get(undefined)` is a miss. -/
def getEmployee (st : CacheState) (e : Request) : CacheState × Response :=
  let emp? := match e.employeeId with
    | none => none
    | some i => mapGet st.employeeData i
  match emp? with
  | none =>
    (st, .errorWithIdR ("Employee not found with ID: " ++ (e.employeeId.getD "undefined"))
          e.employeeId 404)
  | some emp =>
    let base := empToResponse emp
    let resp := if jsOrFalse e.includeDirectReports = "true"
      then { base with directReports := some (getDirectReports st.employeeData emp.profiles_email) }
      else base
    (st, .employeeR resp)

/-- The filter body of `getEmployees` for one employee.  A falsy (absent or
empty) parameter skips its clause. -/
def matchesFilters (emp : Employee) (e : Request) (now : Int) : Bool :=
  (match e.firstName with
    | none => true
    | some f => f = "" || strIncludes (strLower emp.profiles_first_name) (strLower f)) &&
  (match e.lastName with
    | none => true
    | some l => l = "" || strIncludes (strLower emp.profiles_last_name) (strLower l)) &&
  (match e.emailPref with
    | none => true
    | some p => p = "" || strStartsWith (strLower emp.profiles_email) (strLower p)) &&
  (match e.departmentId with
    | none => true
    | some d => d = "" || decide (emp.profiles_category_200009617 = some d)) &&
  (if e.recentHire = some "true"
    then decide (Int.fdiv (now - emp.profiles_start_date) MS_PER_DAY ≤ 7)
    else true) &&
  (if jsOrFalse e.includePastEmployees = "true" then true
    else decide (emp.profiles_departure_date = none))

/-- `getEmployees(e)`: filter the snapshot and map to the response shape. -/
def getEmployees (st : CacheState) (e : Request) (now : Int) : CacheState × Response :=
  let matching := (mapValues st.employeeData).filter (fun emp => matchesFilters emp e now)
  (st, .employeesR (matching.map empToResponse))

/-- The shared scan of `getDepartment` and `getDepartmentByName`: headcount
and tenure total over employees whose department code strictly equals
`deptId`, honouring the include-past-employees toggle. -/
def deptTally (m : List (String × Employee)) (deptId : Option String) (includePast : Bool) :
    Int × Int :=
  (mapValues m).foldl
    (fun acc emp =>
      if emp.profiles_category_200009617 = deptId
          ∧ (includePast ∨ emp.profiles_departure_date = none)
        then (acc.1 + 1, acc.2 + emp.tenureInMonths) else acc)
    (0, 0)

/-- `getDepartment(e)`: recompute headcount and average for the given
department id (the parameter is compared with `===`, so an absent parameter
matches an `undefined` department code).  The average is unguarded in the
source: a `0` headcount yields `0/0 = NaN` (`none`). -/
def getDepartment (st : CacheState) (e : Request) : CacheState × Response :=
  let incl := jsOrFalse e.includePastEmployees = "true"
  let t := deptTally st.employeeData e.departmentId incl
  (st, .departmentR
    { id := e.departmentId, name := e.departmentId, departmentHeadcount := t.1,
      averageTenureInMonths := if t.1 = 0 then none else some (jsRoundDiv t.2 t.1) })

/-- Is the record's `name` truthy (present and nonempty)? -/
def truthyName (d : Department) : Bool :=
  match d.name with
  | none => false
  | some s => s ≠ ""

/-- The find-loop condition of `getDepartmentByName`:
`dept.name && dept.name.toLowerCase() === x.toLowerCase() || dept.id === x`. -/
def deptMatches (d : Department) (nameOrId : String) : Bool :=
  (truthyName d && decide (strLower (d.name.getD "") = strLower nameOrId)) ||
  decide (d.id = some nameOrId)

/-- The first department record matching the name (case-insensitively) or the
id (strictly). -/
def findDeptByName (dm : List (Option String × Department)) (nameOrId : String) :
    Option Department :=
  (mapValues dm).find? (fun d => deptMatches d nameOrId)

/-- The find loop when the `departmentName` parameter is `undefined`: the
first record with a truthy name throws (`undefined.toLowerCase()`); otherwise
a record with an `undefined` id matches (`undefined === undefined`). -/
def findDeptUndefinedName (dm : List (Option String × Department)) :
    Except String (Option Department) :=
  match dm with
  | [] => .ok none
  | (_, d) :: rest =>
    if truthyName d then .error "TypeError: Cannot read toLowerCase of undefined"
    else if d.id = none then .ok (some d)
    else findDeptUndefinedName rest

/-- The response `getDepartmentByName` builds for a found department: the
average is guarded, a `0` headcount yields `0`. -/
def deptByNameResponse (st : CacheState) (e : Request) (d : Department) : Response :=
  let incl := jsOrFalse e.includePastEmployees = "true"
  let t := deptTally st.employeeData d.id incl
  .departmentR
    { id := d.id, name := d.name, departmentHeadcount := t.1,
      averageTenureInMonths := some (if 0 < t.1 then jsRoundDiv t.2 t.1 else 0) }

/-- `getDepartmentByName` when the parameter is a string: find by
case-insensitive name or strict id, 404 when absent, else the recomputed
payload with division-by-zero guard. -/
def getDepartmentByNameNamed (st : CacheState) (e : Request) (nm : String) :
    CacheState × Response :=
  match findDeptByName st.departments nm with
  | none => (st, .errorR ("Department not found with name or ID: " ++ nm) 404)
  | some d => (st, deptByNameResponse st e d)

/-- `getDepartmentByName` when the parameter is `undefined`. -/
def getDepartmentByNameUndef (st : CacheState) (e : Request) : CacheState × Response :=
  match findDeptUndefinedName st.departments with
  | .error msg => (st, .thrownR msg)
  | .ok none =>
    (st, .errorR "Department not found with name or ID: undefined" 404)
  | .ok (some d) => (st, deptByNameResponse st e d)

/-- `getDepartmentByName(e)`. -/
def getDepartmentByName (st : CacheState) (e : Request) : CacheState × Response :=
  match e.departmentName with
  | none => getDepartmentByNameUndef st e
  | some nm => getDepartmentByNameNamed st e nm

/-- `getDepartments`'s per-record recount: the number of employees whose
department code strictly equals the record's `id` field, honouring the
toggle.  The `'all'` record's `id` is `undefined`, so it counts the employees
with an `undefined` department code. -/
def countEmployeesOfDept (m : List (String × Employee)) (deptId : Option String)
    (includePast : Bool) : Int :=
  ((mapValues m).filter (fun emp =>
      decide (emp.profiles_category_200009617 = deptId
        ∧ (includePast ∨ emp.profiles_departure_date = none)))).length

/-- Lexicographic character comparison standing in for `localeCompare`
ascending order (no settled claim depends on the collation). -/
def charsLe : List Char → List Char → Bool
  | [], _ => true
  | _ :: _, [] => false
  | a :: as, b :: bs => if a = b then charsLe as bs else decide (a < b)

/-- The comparator's order on two department records with names. -/
def deptNameLe (a b : Department) : Bool :=
  charsLe (a.name.getD "").data (b.name.getD "").data

/-- Insert into a sorted list. -/
def insertSorted (le : α → α → Bool) (a : α) : List α → List α
  | [] => [a]
  | b :: t => if le a b then a :: b :: t else b :: insertSorted le a t

/-- Insertion sort (the sorted order of `Array.prototype.sort`). -/
def sortByLe (le : α → α → Bool) : List α → List α
  | [] => []
  | a :: t => insertSorted le a (sortByLe le t)

/-- Does the sort call throw?  The comparator dereferences `name`, so a record
without a name throws once the array has at least two elements (with fewer the
comparator is never called). -/
def sortThrows (l : List Department) : Bool :=
  decide (2 ≤ l.length) && l.any (fun d => d.name = none)

/-- The recount loop of `getDepartments`: it assigns the recomputed headcount
into every record of the **shared** department map. -/
def recountedDepts (st : CacheState) (includePast : Bool) :
    List (Option String × Department) :=
  st.departments.map (fun p =>
    (p.1, { p.2 with departmentHeadcount :=
              countEmployeesOfDept st.employeeData p.2.id includePast }))

/-- The zero-headcount filter of `getDepartments` (skipped when past employees
are included). -/
def filteredDepts (updated : List (Option String × Department)) (includePast : Bool) :
    List Department :=
  if includePast then mapValues updated
  else (mapValues updated).filter (fun d => decide (0 < d.departmentHeadcount))

/-- The response mapping of `getDepartments`. -/
def deptToResponse (d : Department) : DepartmentResponse :=
  { id := d.id, name := d.name, departmentHeadcount := d.departmentHeadcount,
    averageTenureInMonths := d.averageTenureInMonths }

/-- The response of `getDepartments` over the recounted records: sort (which
throws when a nameless record meets the comparator), map, and 404 on empty. -/
def departmentsResponse (updated : List (Option String × Department))
    (includePast : Bool) : Response :=
  if sortThrows (filteredDepts updated includePast) then
    .thrownR "TypeError: Cannot read toLowerCase of undefined"
  else if ((sortByLe deptNameLe (filteredDepts updated includePast)).map deptToResponse).length
      = 0 then
    .errorR (if includePast then "No departments found."
             else "No departments found with active employees.") 404
  else .departmentsR ((sortByLe deptNameLe (filteredDepts updated includePast)).map deptToResponse)

/-- `getDepartments(e)`: recount every record's headcount **in place on the
shared department records**, filter out zero-headcount records unless past
employees are included, sort by name, 404 on an empty result.  The state it
returns carries the mutated department records. -/
def getDepartments (st : CacheState) (e : Request) : CacheState × Response :=
  ({ employeeData := st.employeeData
     departments := recountedDepts st (jsOrFalse e.includePastEmployees = "true") },
   departmentsResponse (recountedDepts st (jsOrFalse e.includePastEmployees = "true"))
     (jsOrFalse e.includePastEmployees = "true"))

/-! ## The router -/

/-- `doGet`'s catch: an exception escaping a handler becomes
`{error: message, status: 500}`. -/
def catchThrown : Response → Response
  | .thrownR m => .errorR m 500
  | r => r

/-- The routing switch of `doGet` (steps 2–4), over the state after the
freshness check. -/
def handleRoute (st1 : CacheState) (now : Int) (e : Request) (path : String) :
    CacheState × Response :=
  let raw :=
    if strStartsWith path "employees/" then
      let eid := strDrop path 10
      if eid = "" ∨ jsStringIsNum eid = false then
        (st1, Response.thrownR ("Invalid employeeId: " ++ eid))
      else getEmployee st1 { e with employeeId := some eid }
    else if strStartsWith path "departments/" then
      let dnm := strDrop path 12
      if dnm = "" then (st1, Response.thrownR ("Invalid departmentName: " ++ dnm))
      else getDepartmentByName st1 { e with departmentName := some dnm }
    else if path = "employees" then getEmployees st1 e now
    else if path = "departments" then getDepartments st1 e
    else (st1, Response.thrownR ("Invalid endpoint: " ++ path))
  (raw.1, catchThrown raw.2)

/-- `doGet(e)`: reload when the cache is empty or the persisted refresh
timestamp (epoch ms) is older than 24 hours (ignoring `loadData`'s return
value, as the source does), then route on `pathInfo`. -/
def doGet (st : CacheState) (lastRefresh : Int) (fetch : Except String (List RowItem))
    (now : Int) (e : Request) : CacheState × Response :=
  let st1 := if st.employeeData.length = 0 ∨ now - lastRefresh > 86400000
    then (loadData st fetch now).1 else st
  match e.pathInfo with
  | none => (st1, .errorR "Invalid request: Missing path information." 400)
  | some path => handleRoute st1 now e path

/-! ## Headcount invariant -/

/-- The headcount sum over the real department records (every entry except the
synthetic `'all'` entry). -/
def realDeptHeadcountSum (dm : List (Option String × Department)) : Int :=
  ((dm.filter (fun p => decide (p.1 ≠ some "all"))).map
    (fun p => p.2.departmentHeadcount)).sum

/-- The claimed invariant: the real records' headcounts sum to the `'all'`
record's headcount, and both equal the number of employee records. -/
def headcountInvariant (st : CacheState) : Prop :=
  (mapGet st.departments (some "all")).map Department.departmentHeadcount
      = some (realDeptHeadcountSum st.departments)
    ∧ realDeptHeadcountSum st.departments = (st.employeeData.length : Int)

instance decHeadcountInvariant (st : CacheState) : Decidable (headcountInvariant st) := by
  unfold headcountInvariant
  infer_instance

/-! ## Concrete data for the witnesses and counterexamples

`2630016000` ms is exactly one average month (`86400000 * 30.44`), and
`13150080000` ms is five of them. -/

/-- An active employee row. -/
def rowA : RawRow :=
  { profiles_guid := "g1", profiles_first_name := "Ada", profiles_last_name := "L",
    profiles_email := "a@x", profiles_job_title := "Eng", profiles_user_status := "active",
    profiles_employee_type := "ft", profiles_reports_to_email := "",
    profiles_start_date := 0, profiles_departure_date := none,
    profiles_category_200009617 := some "D", profiles_category_200009618 := "",
    profiles_office_address1 := "HQ" }

/-- A second active employee in the same department, reporting to `a@x`,
hired two average months later. -/
def rowB : RawRow :=
  { rowA with profiles_guid := "g2", profiles_email := "b@x",
              profiles_reports_to_email := "a@x", profiles_start_date := 5260032000 }

/-- A row whose start date lies after the load instant used with it. -/
def rowFuture : RawRow :=
  { rowA with profiles_start_date := 5260032000 }

/-- A report with two good rows. -/
def goodItems : List RowItem := [.ok rowA, .ok rowB]

/-- A report whose second row is `null`: pivoting it throws after the first
row was already committed. -/
def badItems : List RowItem :=
  [.ok rowA, .bad "TypeError: Cannot read properties of null"]

/-- The load instant used by the concrete loads: five average months. -/
def nowW : Int := 13150080000

/-- The snapshot after loading `goodItems` into the empty state. -/
def stLoaded : CacheState := (loadData emptyState (.ok goodItems) nowW).1

/-- The snapshot after loading `goodItems` a second time. -/
def stTwice : CacheState := (loadData stLoaded (.ok goodItems) nowW).1

/-- A departed employee (left after one average month). -/
def empDeparted : Employee :=
  mkEmployee { rowA with profiles_departure_date := some 2630016000 } 0

/-- A snapshot whose only employee has departed, with its department record
as a load would have left it. -/
def stDeparted : CacheState :=
  { employeeData := [("g1", empDeparted)]
    departments := [(some "D",
      { id := some "D", name := some "D", departmentHeadcount := 1,
        totalTenureInMonths := some 1, averageTenureInMonths := some 1 })] }

/-- The request `doGet` receives for a malformed employee id. -/
def reqBadId : Request := { emptyRequest with pathInfo := some "employees/abc" }

/-- The record `stLoaded` holds for `"g1"`: five average months of tenure,
no full year, one direct report (`rowB`). -/
def empA : Employee :=
  { toRawRow := rowA, tenureInMonths := 5, tenureInYears := 0, reportsToCount := some 1 }

/-- A request for department `"d"` (matching `"D"` case-insensitively). -/
def reqD : Request := { emptyRequest with departmentName := some "d" }

/-! ## Proof-side helper definitions -/

/-- The guids of the good rows, in order. -/
def rowKeys : List RowItem → List String
  | [] => []
  | .ok r :: rest => r.profiles_guid :: rowKeys rest
  | .bad _ :: rest => rowKeys rest

/-- Every element of the report content is a well-formed row. -/
def allOk : List RowItem → Prop
  | [] => True
  | .ok _ :: rest => allOk rest
  | .bad _ :: _ => False

/-- Positional agreement of two employee maps: same keys in the same order,
and equal entries at every key outside `gs`. -/
def eqOutside (gs : List String) : List (String × Employee) → List (String × Employee) → Prop
  | [], [] => True
  | p :: t₁, q :: t₂ => p.1 = q.1 ∧ (p.1 ∉ gs → p = q) ∧ eqOutside gs t₁ t₂
  | _, _ => False

/-- Erase the (second-pass) `reportsToCount` field. -/
def stripRc (e : Employee) : Employee :=
  { e with reportsToCount := none }

/-- Erase every `reportsToCount` in a map. -/
def stripMap (m : List (String × Employee)) : List (String × Employee) :=
  m.map (fun p => (p.1, stripRc p.2))

/-- How many of the projected employees carry the department code `k`. -/
def cntOf (ps : List (Option String × Int)) (k : Option String) : Int :=
  ((ps.filter (fun p => decide (p.1 = k))).length : Int)

/-- The tenure total of the projected employees carrying `k`. -/
def sumOf (ps : List (Option String × Int)) (k : Option String) : Int :=
  ((ps.filter (fun p => decide (p.1 = k))).map (fun p => p.2)).sum

/-! ## Lemmas about the map model -/

section MapLemmas

variable {κ : Type} {α : Type} [DecidableEq κ]

theorem mapGet_cons (p : κ × α) (t : List (κ × α)) (k : κ) :
    mapGet (p :: t) k = if p.1 = k then some p.2 else mapGet t k := by
  by_cases h : p.1 = k
  · simp [mapGet, List.find?_cons_of_pos, h]
  · simp [mapGet, List.find?_cons_of_neg, h]

theorem mapHasKey_cons (p : κ × α) (t : List (κ × α)) (k : κ) :
    mapHasKey (p :: t) k = (decide (p.1 = k) || mapHasKey t k) := by
  simp [mapHasKey]

theorem mapHasKey_append (l₁ l₂ : List (κ × α)) (k : κ) :
    mapHasKey (l₁ ++ l₂) k = (mapHasKey l₁ k || mapHasKey l₂ k) := by
  simp [mapHasKey]

theorem mapGet_eq_none_of_not_hasKey {m : List (κ × α)} {k : κ}
    (h : mapHasKey m k = false) : mapGet m k = none := by
  induction m with
  | nil => rfl
  | cons p t ih =>
    rw [mapHasKey_cons] at h
    rcases Bool.or_eq_false_iff.mp h with ⟨h1, h2⟩
    rw [mapGet_cons, if_neg (by simpa using h1)]
    exact ih h2

theorem mapHasKey_of_mapGet_eq_some {m : List (κ × α)} {k : κ} {v : α}
    (h : mapGet m k = some v) : mapHasKey m k = true := by
  by_contra hc
  rw [mapGet_eq_none_of_not_hasKey (Bool.not_eq_true _ ▸ hc : mapHasKey m k = false)] at h
  exact Option.noConfusion h

theorem mapGet_append_left {l₁ : List (κ × α)} (l₂ : List (κ × α)) {k : κ}
    (h : mapHasKey l₁ k = true) : mapGet (l₁ ++ l₂) k = mapGet l₁ k := by
  induction l₁ with
  | nil => simp [mapHasKey] at h
  | cons p t ih =>
    rw [List.cons_append, mapGet_cons, mapGet_cons]
    by_cases hp : p.1 = k
    · rw [if_pos hp, if_pos hp]
    · rw [if_neg hp, if_neg hp]
      rw [mapHasKey_cons] at h
      rcases Bool.or_eq_true_iff.mp h with h1 | h2
      · exact absurd (of_decide_eq_true h1) hp
      · exact ih h2

theorem mapGet_append_right {l₁ : List (κ × α)} (l₂ : List (κ × α)) {k : κ}
    (h : mapHasKey l₁ k = false) : mapGet (l₁ ++ l₂) k = mapGet l₂ k := by
  induction l₁ with
  | nil => rfl
  | cons p t ih =>
    rw [mapHasKey_cons] at h
    rcases Bool.or_eq_false_iff.mp h with ⟨h1, h2⟩
    rw [List.cons_append, mapGet_cons, if_neg (by simpa using h1)]
    exact ih h2

theorem map_replaceIf_of_not_hasKey {m : List (κ × α)} {k : κ} (v : α)
    (h : mapHasKey m k = false) : m.map (replaceIf k v) = m := by
  induction m with
  | nil => rfl
  | cons p t ih =>
    rw [mapHasKey_cons] at h
    rcases Bool.or_eq_false_iff.mp h with ⟨h1, h2⟩
    rw [List.map_cons, ih h2, replaceIf, if_neg (by simpa using h1)]

theorem mapGet_map_replaceIf_self (m : List (κ × α)) (k : κ) (v : α)
    (h : mapHasKey m k = true) : mapGet (m.map (replaceIf k v)) k = some v := by
  induction m with
  | nil => simp [mapHasKey] at h
  | cons p t ih =>
    rw [List.map_cons, mapGet_cons]
    by_cases hp : p.1 = k
    · rw [replaceIf, if_pos hp]
      simp
    · rw [replaceIf, if_neg hp, if_neg hp]
      rw [mapHasKey_cons] at h
      rcases Bool.or_eq_true_iff.mp h with h1 | h2
      · exact absurd (of_decide_eq_true h1) hp
      · exact ih h2

theorem mapGet_mapSet_self (m : List (κ × α)) (k : κ) (v : α) :
    mapGet (mapSet m k v) k = some v := by
  unfold mapSet
  by_cases h : mapHasKey m k = true
  · rw [if_pos h]
    exact mapGet_map_replaceIf_self m k v h
  · rw [if_neg h]
    have h' : mapHasKey m k = false := by
      cases hb : mapHasKey m k
      · rfl
      · exact absurd hb h
    rw [mapGet_append_right _ h', mapGet_cons]
    simp

theorem mapGet_map_replaceIf_ne (m : List (κ × α)) (k : κ) (v : α) {k' : κ}
    (h : k' ≠ k) : mapGet (m.map (replaceIf k v)) k' = mapGet m k' := by
  induction m with
  | nil => rfl
  | cons p t ih =>
    rw [List.map_cons, mapGet_cons, mapGet_cons, replaceIf]
    by_cases hp : p.1 = k
    · rw [if_pos hp]
      have : ¬ (k = k') := fun hk => h hk.symm
      simp only [this, if_false]
      rw [if_neg (fun hpk : p.1 = k' => this (hp ▸ hpk))]
      exact ih
    · rw [if_neg hp]
      by_cases hpk : p.1 = k'
      · rw [if_pos hpk, if_pos hpk]
      · rw [if_neg hpk, if_neg hpk]
        exact ih

theorem mapGet_mapSet_ne (m : List (κ × α)) (k : κ) (v : α) {k' : κ}
    (h : k' ≠ k) : mapGet (mapSet m k v) k' = mapGet m k' := by
  unfold mapSet
  by_cases hk : mapHasKey m k = true
  · rw [if_pos hk]
    exact mapGet_map_replaceIf_ne m k v h
  · rw [if_neg hk]
    by_cases hk' : mapHasKey m k' = true
    · exact mapGet_append_left _ hk'
    · have h1 : mapHasKey m k' = false := by
        cases hb : mapHasKey m k'
        · rfl
        · exact absurd hb hk'
      rw [mapGet_append_right _ h1, mapGet_eq_none_of_not_hasKey h1, mapGet_cons,
        if_neg (fun hkk : k = k' => h hkk.symm)]
      rfl

theorem mem_mapSet {m : List (κ × α)} {k : κ} {v : α} {p : κ × α}
    (h : p ∈ mapSet m k v) : p ∈ m ∨ p = (k, v) := by
  unfold mapSet at h
  by_cases hk : mapHasKey m k = true
  · rw [if_pos hk] at h
    rcases List.mem_map.mp h with ⟨q, hq, hrep⟩
    unfold replaceIf at hrep
    by_cases hq1 : q.1 = k
    · rw [if_pos hq1] at hrep
      exact Or.inr hrep.symm
    · rw [if_neg hq1] at hrep
      exact Or.inl (hrep ▸ hq)
  · rw [if_neg hk] at h
    rcases List.mem_append.mp h with h1 | h2
    · exact Or.inl h1
    · exact Or.inr (List.mem_singleton.mp h2)

theorem mapGet_map_value (m : List (κ × α)) (f : α → α) (k : κ) :
    mapGet (m.map (fun p => (p.1, f p.2))) k = (mapGet m k).map f := by
  induction m with
  | nil => rfl
  | cons p t ih =>
    rw [List.map_cons, mapGet_cons, mapGet_cons]
    by_cases hp : p.1 = k
    · rw [if_pos hp, if_pos hp]
      rfl
    · rw [if_neg hp, if_neg hp]
      exact ih

theorem mapGet_map_entry (m : List (κ × α)) (f : κ × α → α) (k : κ) :
    mapGet (m.map (fun p => (p.1, f p))) k = (m.find? (fun p => p.1 = k)).map f := by
  induction m with
  | nil => rfl
  | cons p t ih =>
    rw [List.map_cons, mapGet_cons]
    by_cases hp : p.1 = k
    · rw [if_pos hp, List.find?_cons_of_pos _ (by simpa using hp)]
      rfl
    · rw [if_neg hp, List.find?_cons_of_neg _ (by simpa using hp)]
      exact ih

theorem fst_replaceIf (k : κ) (v : α) (p : κ × α) : (replaceIf k v p).1 = p.1 := by
  unfold replaceIf
  by_cases hp : p.1 = k
  · rw [if_pos hp, hp]
  · rw [if_neg hp]

theorem mapKeys_map_replaceIf (m : List (κ × α)) (k : κ) (v : α) :
    mapKeys (m.map (replaceIf k v)) = mapKeys m := by
  induction m with
  | nil => rfl
  | cons p t ih =>
    simp only [mapKeys, List.map_cons] at *
    rw [fst_replaceIf]
    rw [List.cons.injEq]
    exact ⟨rfl, ih⟩

theorem mapHasKey_eq_mem_keys (m : List (κ × α)) (k : κ) :
    mapHasKey m k = true ↔ k ∈ mapKeys m := by
  constructor
  · intro h
    rcases List.any_eq_true.mp h with ⟨p, hp, hdec⟩
    exact (of_decide_eq_true hdec) ▸ List.mem_map_of_mem _ hp
  · intro h
    rcases List.mem_map.mp h with ⟨p, hp, hk⟩
    exact List.any_eq_true.mpr ⟨p, hp, decide_eq_true hk⟩

theorem mapKeys_mapSet_of_hasKey (m : List (κ × α)) (k : κ) (v : α)
    (h : mapHasKey m k = true) : mapKeys (mapSet m k v) = mapKeys m := by
  unfold mapSet
  rw [if_pos h]
  exact mapKeys_map_replaceIf m k v

theorem nodupKeys_mapSet {m : List (κ × α)} (k : κ) (v : α)
    (h : nodupKeys m) : nodupKeys (mapSet m k v) := by
  unfold mapSet
  by_cases hk : mapHasKey m k = true
  · rw [if_pos hk]
    unfold nodupKeys
    rw [show mapKeys (List.map (replaceIf k v) m) = mapKeys (mapSet m k v) by
      unfold mapSet
      rw [if_pos hk]]
    rw [mapKeys_mapSet_of_hasKey m k v hk]
    exact h
  · rw [if_neg hk]
    unfold nodupKeys mapKeys at *
    rw [List.map_append]
    apply List.Nodup.append h (by simp)
    intro a ha hb
    simp only [List.map_cons, List.map_nil, List.mem_singleton] at hb
    subst hb
    have : mapHasKey m a = true := (mapHasKey_eq_mem_keys m a).mpr ha
    exact hk this

theorem map_replaceIf_eq_self (k : κ) (v : α) :
    ∀ m : List (κ × α), nodupKeys m → mapGet m k = some v → m.map (replaceIf k v) = m
  | [], _, h => by simp [mapGet] at h
  | p :: t, hnd, h => by
    rw [mapGet_cons] at h
    have hndc : p.1 ∉ mapKeys t ∧ nodupKeys t := by
      unfold nodupKeys mapKeys at hnd
      rw [List.map_cons, List.nodup_cons] at hnd
      exact hnd
    rw [List.map_cons]
    by_cases hp : p.1 = k
    · rw [if_pos hp] at h
      have hv : p.2 = v := Option.some.inj h
      have hnk : mapHasKey t k = false := by
        cases hb : mapHasKey t k with
        | false => rfl
        | true => exact absurd (hp ▸ (mapHasKey_eq_mem_keys t k).mp hb) hndc.1
      rw [map_replaceIf_of_not_hasKey v hnk]
      show replaceIf k v p :: t = p :: t
      unfold replaceIf
      rw [if_pos hp, ← hp, ← hv]
    · rw [if_neg hp] at h
      rw [map_replaceIf_eq_self k v t hndc.2 h]
      show replaceIf k v p :: t = p :: t
      unfold replaceIf
      rw [if_neg hp]

theorem mapSet_eq_self {m : List (κ × α)} {k : κ} {v : α}
    (hnd : nodupKeys m) (h : mapGet m k = some v) : mapSet m k v = m := by
  unfold mapSet
  rw [if_pos (mapHasKey_of_mapGet_eq_some h)]
  exact map_replaceIf_eq_self k v m hnd h

theorem mem_of_mapGet_eq_some {m : List (κ × α)} {k : κ} {v : α}
    (h : mapGet m k = some v) : (k, v) ∈ m := by
  induction m with
  | nil => simp [mapGet] at h
  | cons p t ih =>
    rw [mapGet_cons] at h
    by_cases hp : p.1 = k
    · rw [if_pos hp] at h
      have hpv : p = (k, v) := Prod.ext_iff.mpr ⟨hp, Option.some.inj h⟩
      rw [← hpv]
      exact List.mem_cons_self p t
    · rw [if_neg hp] at h
      exact List.mem_cons_of_mem p (ih h)

theorem mapGet_isSome_of_hasKey {m : List (κ × α)} {k : κ}
    (h : mapHasKey m k = true) : (mapGet m k).isSome := by
  induction m with
  | nil => simp [mapHasKey] at h
  | cons p t ih =>
    rw [mapGet_cons]
    by_cases hp : p.1 = k
    · rw [if_pos hp]
      rfl
    · rw [if_neg hp]
      rw [mapHasKey_cons] at h
      rcases Bool.or_eq_true_iff.mp h with h1 | h2
      · exact absurd (of_decide_eq_true h1) hp
      · exact ih h2

theorem mapHasKey_eq_false_of_mapGet_eq_none {m : List (κ × α)} {k : κ}
    (h : mapGet m k = none) : mapHasKey m k = false := by
  cases hb : mapHasKey m k with
  | false => rfl
  | true =>
    have := mapGet_isSome_of_hasKey hb
    rw [h] at this
    exact absurd this (by simp)

theorem mapHasKey_mapSet_of_hasKey {m : List (κ × α)} {k' : κ} (k : κ) (v : α)
    (h : mapHasKey m k' = true) : mapHasKey (mapSet m k v) k' = true := by
  rw [mapHasKey_eq_mem_keys] at h ⊢
  unfold mapSet
  by_cases hk : mapHasKey m k = true
  · rw [if_pos hk, mapKeys_map_replaceIf]
    exact h
  · rw [if_neg hk]
    unfold mapKeys at h ⊢
    rw [List.map_append]
    exact List.mem_append_left _ h

end MapLemmas

/-! ## Lemmas about the arithmetic -/

theorem floor_ratio (d : Int) {n : Int} (hn : 0 < n) :
    ⌊(d : ℚ) / (n : ℚ)⌋ = Int.fdiv d n := by
  rw [Int.fdiv_eq_ediv d hn.le]
  lift n to ℕ using hn.le with m
  rw [show ((m : ℤ) : ℚ) = (m : ℚ) by push_cast; ring]
  exact Rat.floor_intCast_div_natCast d m

theorem tenureMonthsOf_spec (d : Int) : tenureMonthsOf d = specTenureMonths d := by
  unfold tenureMonthsOf specTenureMonths
  rw [← floor_ratio (25 * d) (by norm_num : (0 : ℤ) < 65750400000)]
  congr 1
  push_cast
  rw [div_eq_div_iff (by norm_num) (by norm_num)]
  ring_nf

theorem tenureYearsOf_spec (d : Int) : tenureYearsOf d = specTenureYears d := by
  unfold tenureYearsOf specTenureYears
  rw [← floor_ratio d (by norm_num : (0 : ℤ) < 31557600000)]
  congr 1
  norm_num

theorem jsRoundDiv_spec (t : Int) {n : Int} (hn : 0 < n) :
    jsRoundDiv t n = ⌊(t : ℚ) / (n : ℚ) + 1 / 2⌋ := by
  unfold jsRoundDiv
  rw [← floor_ratio (2 * t + n) (by positivity : (0 : ℤ) < 2 * n)]
  congr 1
  have hn' : (n : ℚ) ≠ 0 := Int.cast_ne_zero.mpr hn.ne'
  push_cast
  field_simp
  ring

theorem jsRoundDiv_double (s : Int) {c : Int} (hc : 0 < c) :
    jsRoundDiv (s + s) (c + c) = jsRoundDiv s c := by
  rw [jsRoundDiv_spec s hc, jsRoundDiv_spec (s + s) (by omega : (0 : ℤ) < c + c)]
  congr 2
  have hc' : (c : ℚ) ≠ 0 := Int.cast_ne_zero.mpr hc.ne'
  push_cast
  rw [div_eq_div_iff (by positivity) hc']
  ring

theorem tenureMonthsOf_nonneg {d : Int} (h : 0 ≤ d) : 0 ≤ tenureMonthsOf d := by
  rw [tenureMonthsOf_spec]
  unfold specTenureMonths
  apply Int.floor_nonneg.mpr
  apply div_nonneg
  · exact_mod_cast h
  · norm_num

theorem tenureYearsOf_nonneg {d : Int} (h : 0 ≤ d) : 0 ≤ tenureYearsOf d := by
  rw [tenureYearsOf_spec]
  unfold specTenureYears
  apply Int.floor_nonneg.mpr
  apply div_nonneg
  · exact_mod_cast h
  · norm_num

/-! ## Lemmas about the first load pass -/

theorem mem_insRows (now : Int) :
    ∀ (items : List RowItem) (m : List (String × Employee)) (p : String × Employee),
      p ∈ (insRows m items now).1 →
      p ∈ m ∨ ∃ r, RowItem.ok r ∈ items ∧ p.1 = r.profiles_guid ∧ p.2 = mkEmployee r now
  | [], _, _, h => Or.inl h
  | .ok r :: rest, m, p, h => by
    rcases mem_insRows now rest (mapSet m r.profiles_guid (mkEmployee r now)) p h with
      h1 | ⟨r', hr', hg, hv⟩
    · rcases mem_mapSet h1 with h2 | h3
      · exact Or.inl h2
      · exact Or.inr ⟨r, List.mem_cons_self _ _, by rw [h3], by rw [h3]⟩
    · exact Or.inr ⟨r', List.mem_cons_of_mem _ hr', hg, hv⟩
  | .bad _ :: _, _, _, h => Or.inl h

theorem nodupKeys_insRows (now : Int) :
    ∀ (items : List RowItem) (m : List (String × Employee)),
      nodupKeys m → nodupKeys (insRows m items now).1
  | [], _, h => h
  | .ok r :: rest, _, h =>
    nodupKeys_insRows now rest _ (nodupKeys_mapSet r.profiles_guid (mkEmployee r now) h)
  | .bad _ :: _, _, h => h

theorem mapGet_insRows_not_mem (now : Int) :
    ∀ (items : List RowItem) (m : List (String × Employee)) (g : String),
      g ∉ rowKeys items → mapGet (insRows m items now).1 g = mapGet m g
  | [], _, _, _ => rfl
  | .ok r :: rest, m, g, h => by
    have hne : g ≠ r.profiles_guid := fun he => h (he ▸ List.mem_cons_self _ _)
    have hrest : g ∉ rowKeys rest := fun hm => h (List.mem_cons_of_mem _ hm)
    rw [show (insRows m (.ok r :: rest) now).1
        = (insRows (mapSet m r.profiles_guid (mkEmployee r now)) rest now).1 from rfl]
    rw [mapGet_insRows_not_mem now rest _ g hrest]
    exact mapGet_mapSet_ne m _ _ hne
  | .bad _ :: _, _, _, _ => rfl

theorem mapHasKey_insRows (now : Int) :
    ∀ (items : List RowItem) (m : List (String × Employee)) (g : String),
      mapHasKey m g = true → mapHasKey (insRows m items now).1 g = true
  | [], _, _, h => h
  | .ok _ :: rest, _, g, h =>
    mapHasKey_insRows now rest _ g (mapHasKey_mapSet_of_hasKey _ _ h)
  | .bad _ :: _, _, _, h => h

/-! ## Lemmas about `eqOutside` -/

theorem eqOutside_eq_of_nil : ∀ {m₁ m₂ : List (String × Employee)},
    eqOutside [] m₁ m₂ → m₁ = m₂
  | [], [], _ => rfl
  | p :: t₁, q :: t₂, h => by
    rcases h with ⟨_, h2, h3⟩
    rw [h2 (List.not_mem_nil _), eqOutside_eq_of_nil h3]
  | [], _ :: _, h => absurd h not_false
  | _ :: _, [], h => absurd h not_false

theorem eqOutside_keys {gs : List String} : ∀ {m₁ m₂ : List (String × Employee)},
    eqOutside gs m₁ m₂ → mapKeys m₁ = mapKeys m₂
  | [], [], _ => rfl
  | p :: t₁, q :: t₂, h => by
    rcases h with ⟨h1, _, h3⟩
    unfold mapKeys
    rw [List.map_cons, List.map_cons, h1]
    have := eqOutside_keys h3
    unfold mapKeys at this
    rw [this]
  | [], _ :: _, h => absurd h not_false
  | _ :: _, [], h => absurd h not_false

theorem eqOutside_hasKey {gs : List String} {m₁ m₂ : List (String × Employee)}
    (h : eqOutside gs m₁ m₂) (k : String) : mapHasKey m₁ k = mapHasKey m₂ k := by
  have hiff : mapHasKey m₁ k = true ↔ mapHasKey m₂ k = true := by
    rw [mapHasKey_eq_mem_keys, mapHasKey_eq_mem_keys, eqOutside_keys h]
  cases hb1 : mapHasKey m₁ k with
  | true => rw [hiff.mp hb1]
  | false =>
    cases hb2 : mapHasKey m₂ k with
    | false => rfl
    | true => exact absurd (hiff.mpr hb2) (by rw [hb1]; simp)

theorem eqOutside_map_replaceIf {g : String} {gs : List String} (v : Employee) :
    ∀ {m₁ m₂ : List (String × Employee)}, eqOutside (g :: gs) m₁ m₂ →
      eqOutside gs (m₁.map (replaceIf g v)) (m₂.map (replaceIf g v))
  | [], [], _ => trivial
  | p :: t₁, q :: t₂, h => by
    rcases h with ⟨h1, h2, h3⟩
    refine ⟨by rw [fst_replaceIf, fst_replaceIf, h1], ?_, eqOutside_map_replaceIf v h3⟩
    intro hout
    rw [fst_replaceIf] at hout
    unfold replaceIf
    by_cases hp : p.1 = g
    · rw [if_pos hp, if_pos (h1 ▸ hp)]
    · rw [if_neg hp, if_neg (fun hq : q.1 = g => hp (h1.trans hq))]
      exact h2 (by
        intro hmem
        rcases List.mem_cons.mp hmem with hmg | hmgs
        · exact hp hmg
        · exact hout hmgs)
  | [], _ :: _, h => absurd h not_false
  | _ :: _, [], h => absurd h not_false

theorem eqOutside_append_single {g : String} {gs : List String} (v : Employee) :
    ∀ {m₁ m₂ : List (String × Employee)}, eqOutside (g :: gs) m₁ m₂ →
      mapHasKey m₁ g = false →
      eqOutside gs (m₁ ++ [(g, v)]) (m₂ ++ [(g, v)])
  | [], [], _, _ => ⟨rfl, fun _ => rfl, trivial⟩
  | p :: t₁, q :: t₂, h, hk => by
    rcases h with ⟨h1, h2, h3⟩
    rw [mapHasKey_cons] at hk
    rcases Bool.or_eq_false_iff.mp hk with ⟨hk1, hk2⟩
    have hpg : p.1 ≠ g := by simpa using hk1
    refine ⟨h1, ?_, eqOutside_append_single v h3 hk2⟩
    intro hout
    exact h2 (by
      intro hmem
      rcases List.mem_cons.mp hmem with hmg | hmgs
      · exact hpg hmg
      · exact hout hmgs)
  | [], _ :: _, h, _ => absurd h not_false
  | _ :: _, [], h, _ => absurd h not_false

theorem eqOutside_mapSet {g : String} {gs : List String} (v : Employee)
    {m₁ m₂ : List (String × Employee)} (h : eqOutside (g :: gs) m₁ m₂) :
    eqOutside gs (mapSet m₁ g v) (mapSet m₂ g v) := by
  unfold mapSet
  rw [← eqOutside_hasKey h g]
  cases hb : mapHasKey m₁ g with
  | true =>
    simp only [if_true]
    exact eqOutside_map_replaceIf v h
  | false =>
    simp only [Bool.false_eq_true, if_false]
    exact eqOutside_append_single v h hb

theorem eqOutside_mapSet_present {gs : List String} {m : List (String × Employee)}
    {g : String} (v : Employee) (hk : mapHasKey m g = true) (hg : g ∈ gs) :
    eqOutside gs (mapSet m g v) m := by
  unfold mapSet
  rw [if_pos hk]
  clear hk
  induction m with
  | nil => trivial
  | cons p t ih =>
    refine ⟨fst_replaceIf g v p, ?_, ih⟩
    intro hout
    rw [fst_replaceIf] at hout
    unfold replaceIf
    rw [if_neg (fun hp : p.1 = g => hout (hp ▸ hg))]

/-! ## Congruence and idempotence of the first pass -/

theorem insRows_congr (now : Int) :
    ∀ (items : List RowItem) (m₁ m₂ : List (String × Employee)),
      allOk items → eqOutside (rowKeys items) m₁ m₂ →
      (insRows m₁ items now).1 = (insRows m₂ items now).1
  | [], _, _, _, h => eqOutside_eq_of_nil h
  | .ok r :: rest, _, _, hok, h =>
    insRows_congr now rest _ _ hok (eqOutside_mapSet (mkEmployee r now) h)
  | .bad _ :: _, _, _, hok, _ => hok.elim

theorem eqOutside_refl (gs : List String) :
    ∀ m : List (String × Employee), eqOutside gs m m
  | [] => trivial
  | _ :: t => ⟨rfl, fun _ => rfl, eqOutside_refl gs t⟩

theorem insRows_idem (now : Int) :
    ∀ (items : List RowItem) (m : List (String × Employee)),
      allOk items → nodupKeys m →
      (insRows (insRows m items now).1 items now).1 = (insRows m items now).1
  | [], _, _, _ => rfl
  | .ok r :: t, m, hok, hnd => by
    show (insRows (mapSet (insRows (mapSet m r.profiles_guid (mkEmployee r now)) t now).1
            r.profiles_guid (mkEmployee r now)) t now).1
        = (insRows (mapSet m r.profiles_guid (mkEmployee r now)) t now).1
    by_cases hmem : r.profiles_guid ∈ rowKeys t
    · have hkey : mapHasKey (insRows (mapSet m r.profiles_guid (mkEmployee r now)) t now).1
          r.profiles_guid = true := by
        apply mapHasKey_insRows
        exact mapHasKey_of_mapGet_eq_some (mapGet_mapSet_self m _ _)
      have h1 := eqOutside_mapSet_present (mkEmployee r now) hkey hmem
      rw [insRows_congr now t _ _ hok h1]
      exact insRows_idem now t (mapSet m r.profiles_guid (mkEmployee r now)) hok
        (nodupKeys_mapSet _ _ hnd)
    · have hget : mapGet (insRows (mapSet m r.profiles_guid (mkEmployee r now)) t now).1
          r.profiles_guid = some (mkEmployee r now) := by
        rw [mapGet_insRows_not_mem now t _ _ hmem]
        exact mapGet_mapSet_self m _ _
      rw [mapSet_eq_self (nodupKeys_insRows now t _ (nodupKeys_mapSet _ _ hnd)) hget]
      exact insRows_idem now t (mapSet m r.profiles_guid (mkEmployee r now)) hok
        (nodupKeys_mapSet _ _ hnd)
  | .bad _ :: _, _, hok, _ => hok.elim

/-! ## The strip homomorphism -/

theorem stripMap_mapSet (m : List (String × Employee)) (k : String) (v : Employee) :
    stripMap (mapSet m k v) = mapSet (stripMap m) k (stripRc v) := by
  have hk : mapHasKey (stripMap m) k = mapHasKey m k := by
    unfold stripMap mapHasKey
    rw [List.any_map]
    rfl
  unfold mapSet
  rw [hk]
  by_cases hb : mapHasKey m k = true
  · rw [if_pos hb, if_pos hb]
    unfold stripMap
    rw [List.map_map, List.map_map]
    apply List.map_congr_left
    intro p _
    rcases p with ⟨a, e⟩
    by_cases hp : a = k
    · subst hp
      simp [replaceIf]
    · simp [replaceIf, hp]
  · rw [if_neg hb, if_neg hb]
    unfold stripMap
    rw [List.map_append]
    rfl

theorem stripRc_mkEmployee (r : RawRow) (now : Int) :
    stripRc (mkEmployee r now) = mkEmployee r now := rfl

theorem stripMap_insRows (now : Int) :
    ∀ (items : List RowItem) (m : List (String × Employee)),
      stripMap (insRows m items now).1 = (insRows (stripMap m) items now).1
  | [], _ => rfl
  | .ok r :: t, m => by
    show stripMap (insRows (mapSet m r.profiles_guid (mkEmployee r now)) t now).1
        = (insRows (mapSet (stripMap m) r.profiles_guid (mkEmployee r now)) t now).1
    rw [stripMap_insRows now t (mapSet m r.profiles_guid (mkEmployee r now)),
        stripMap_mapSet, stripRc_mkEmployee]
  | .bad _ :: _, _ => rfl

theorem stripMap_reportsPass (m : List (String × Employee)) :
    stripMap (reportsPass m) = stripMap m := by
  unfold stripMap reportsPass
  rw [List.map_map]
  apply List.map_congr_left
  intro p _
  rcases p with ⟨g, e⟩
  cases e
  rfl

theorem empDeptTenure_stripMap (m : List (String × Employee)) :
    empDeptTenure (stripMap m) = empDeptTenure m := by
  unfold empDeptTenure stripMap mapValues
  rw [List.map_map, List.map_map, List.map_map]
  apply List.map_congr_left
  intro p _
  rcases p with ⟨g, e⟩
  cases e
  rfl

theorem empDeptTenure_reportsPass (m : List (String × Employee)) :
    empDeptTenure (reportsPass m) = empDeptTenure m := by
  unfold empDeptTenure reportsPass mapValues
  rw [List.map_map, List.map_map, List.map_map]
  apply List.map_congr_left
  intro p _
  rcases p with ⟨g, e⟩
  cases e
  rfl

/-! ## Lemmas about the department passes -/

theorem incTenure_zero (t : Option Int) : incTenure t 0 = t := by
  cases t with
  | none => rfl
  | some x => simp [incTenure]

theorem incTenure_incTenure (t : Option Int) (a b : Int) :
    incTenure (incTenure t a) b = incTenure t (a + b) := by
  cases t with
  | none => rfl
  | some x =>
    simp only [incTenure]
    rw [Int.add_assoc]

theorem cntOf_nil (k : Option String) : cntOf [] k = 0 := rfl

theorem sumOf_nil (k : Option String) : sumOf [] k = 0 := rfl

theorem cntOf_cons_self (p : Option String × Int) (ps : List (Option String × Int)) :
    cntOf (p :: ps) p.1 = cntOf ps p.1 + 1 := by
  unfold cntOf
  rw [List.filter_cons, if_pos (by simp)]
  rw [List.length_cons]
  push_cast
  ring

theorem cntOf_cons_ne (p : Option String × Int) (ps : List (Option String × Int))
    {k : Option String} (h : k ≠ p.1) : cntOf (p :: ps) k = cntOf ps k := by
  unfold cntOf
  rw [List.filter_cons, if_neg (by
    simp only [decide_eq_true_eq]
    exact fun he => h he.symm)]

theorem sumOf_cons_self (p : Option String × Int) (ps : List (Option String × Int)) :
    sumOf (p :: ps) p.1 = p.2 + sumOf ps p.1 := by
  unfold sumOf
  rw [List.filter_cons, if_pos (by simp), List.map_cons, List.sum_cons]

theorem sumOf_cons_ne (p : Option String × Int) (ps : List (Option String × Int))
    {k : Option String} (h : k ≠ p.1) : sumOf (p :: ps) k = sumOf ps k := by
  unfold sumOf
  rw [List.filter_cons, if_neg (by
    simp only [decide_eq_true_eq]
    exact fun he => h he.symm)]

theorem cntOf_nonneg (ps : List (Option String × Int)) (k : Option String) :
    0 ≤ cntOf ps k := by
  unfold cntOf
  exact_mod_cast Nat.zero_le _

theorem mapGet_bucketEnsure (dm : List (Option String × Department)) (k : Option String) :
    mapGet (bucketEnsure dm k) k = some ((mapGet dm k).getD (freshDept k)) := by
  unfold bucketEnsure
  by_cases hb : mapHasKey dm k = true
  · rw [if_pos hb]
    cases hg : mapGet dm k with
    | none =>
      have := mapGet_isSome_of_hasKey hb
      rw [hg] at this
      exact absurd this (by simp)
    | some d => rfl
  · rw [if_neg hb, mapGet_mapSet_self]
    have hfalse : mapHasKey dm k = false := by
      cases hbb : mapHasKey dm k with
      | false => rfl
      | true => exact absurd hbb hb
    rw [mapGet_eq_none_of_not_hasKey hfalse]
    rfl

theorem mapGet_bucketEnsure_ne (dm : List (Option String × Department)) (k : Option String)
    {k' : Option String} (h : k' ≠ k) : mapGet (bucketEnsure dm k) k' = mapGet dm k' := by
  unfold bucketEnsure
  by_cases hb : mapHasKey dm k = true
  · rw [if_pos hb]
  · rw [if_neg hb]
    exact mapGet_mapSet_ne dm k _ h

theorem bucketPair_eq (dm : List (Option String × Department)) (p : Option String × Int) :
    bucketPair dm p = mapSet (bucketEnsure dm p.1) p.1
      { (mapGet dm p.1).getD (freshDept p.1) with
        departmentHeadcount := ((mapGet dm p.1).getD (freshDept p.1)).departmentHeadcount + 1,
        totalTenureInMonths :=
          incTenure ((mapGet dm p.1).getD (freshDept p.1)).totalTenureInMonths p.2 } := by
  unfold bucketPair
  rw [mapGet_bucketEnsure]

theorem mapGet_bucketPair_self (dm : List (Option String × Department))
    (p : Option String × Int) :
    mapGet (bucketPair dm p) p.1 = some
      { (mapGet dm p.1).getD (freshDept p.1) with
        departmentHeadcount := ((mapGet dm p.1).getD (freshDept p.1)).departmentHeadcount + 1,
        totalTenureInMonths :=
          incTenure ((mapGet dm p.1).getD (freshDept p.1)).totalTenureInMonths p.2 } := by
  rw [bucketPair_eq]
  exact mapGet_mapSet_self _ _ _

theorem mapGet_bucketPair_ne (dm : List (Option String × Department))
    (p : Option String × Int) {k : Option String} (h : k ≠ p.1) :
    mapGet (bucketPair dm p) k = mapGet dm k := by
  rw [bucketPair_eq, mapGet_mapSet_ne _ _ _ h]
  exact mapGet_bucketEnsure_ne dm p.1 h

theorem mapGet_bucketAll_some :
    ∀ (ps : List (Option String × Int)) (dm : List (Option String × Department))
      (k : Option String) (d : Department), mapGet dm k = some d →
      mapGet (bucketAll dm ps) k = some
        { d with departmentHeadcount := d.departmentHeadcount + cntOf ps k,
                 totalTenureInMonths := incTenure d.totalTenureInMonths (sumOf ps k) }
  | [], dm, k, d, h => by
    show mapGet dm k = _
    rw [h, cntOf_nil, sumOf_nil, incTenure_zero]
    congr 1
    cases d
    simp
  | p :: ps, dm, k, d, h => by
    show mapGet (bucketAll (bucketPair dm p) ps) k = _
    by_cases hk : k = p.1
    · subst hk
      have h1 := mapGet_bucketPair_self dm p
      rw [h, Option.getD_some] at h1
      rw [mapGet_bucketAll_some ps (bucketPair dm p) p.1 _ h1, cntOf_cons_self, sumOf_cons_self]
      congr 1
      cases d
      simp only [incTenure_incTenure, Department.mk.injEq, true_and, and_true]
      ring
    · rw [mapGet_bucketAll_some ps (bucketPair dm p) k d
          (by rw [mapGet_bucketPair_ne dm p hk]; exact h),
        cntOf_cons_ne p ps hk, sumOf_cons_ne p ps hk]

theorem mapGet_bucketAll_none :
    ∀ (ps : List (Option String × Int)) (dm : List (Option String × Department))
      (k : Option String), mapGet dm k = none →
      mapGet (bucketAll dm ps) k =
        if cntOf ps k = 0 then none
        else some { id := k, name := k, departmentHeadcount := cntOf ps k,
                    totalTenureInMonths := some (sumOf ps k), averageTenureInMonths := none }
  | [], dm, k, h => by
    show mapGet dm k = _
    rw [h, cntOf_nil, if_pos rfl]
  | p :: ps, dm, k, h => by
    show mapGet (bucketAll (bucketPair dm p) ps) k = _
    by_cases hk : k = p.1
    · subst hk
      have h1 := mapGet_bucketPair_self dm p
      rw [h, Option.getD_none] at h1
      rw [mapGet_bucketAll_some ps (bucketPair dm p) p.1 _ h1, cntOf_cons_self, sumOf_cons_self]
      rw [if_neg (by
        have := cntOf_nonneg ps p.1
        omega)]
      simp only [freshDept, incTenure, Option.some.injEq, Department.mk.injEq, true_and, and_true]
      exact ⟨by ring, by ring⟩
    · rw [mapGet_bucketAll_none ps (bucketPair dm p) k
          (by rw [mapGet_bucketPair_ne dm p hk]; exact h),
        cntOf_cons_ne p ps hk, sumOf_cons_ne p ps hk]

theorem mapGet_bucketAll_not_mem :
    ∀ (ps : List (Option String × Int)) (dm : List (Option String × Department))
      (k : Option String), (∀ p ∈ ps, p.1 ≠ k) →
      mapGet (bucketAll dm ps) k = mapGet dm k
  | [], _, _, _ => rfl
  | p :: ps, dm, k, h => by
    show mapGet (bucketAll (bucketPair dm p) ps) k = _
    rw [mapGet_bucketAll_not_mem ps (bucketPair dm p) k
        (fun q hq => h q (List.mem_cons_of_mem _ hq))]
    exact mapGet_bucketPair_ne dm p (fun he => h p (List.mem_cons_self _ _) he.symm)

theorem mapGet_avgPass (dm : List (Option String × Department)) (k : Option String) :
    mapGet (avgPass dm) k
      = (mapGet dm k).map (fun d => { d with averageTenureInMonths := computeAvg d }) := by
  unfold avgPass
  rw [mapGet_map_entry]
  unfold mapGet
  cases dm.find? (fun p => p.1 = k) with
  | none => rfl
  | some p => rfl

/-! ## Lemmas about the headcount totals -/

theorem deptHcSum_cons (p : Option String × Department)
    (t : List (Option String × Department)) :
    deptHcSum (p :: t) = p.2.departmentHeadcount + deptHcSum t := by
  simp [deptHcSum, mapValues]

theorem deptHcSum_append_single (dm : List (Option String × Department))
    (k : Option String) (v : Department) :
    deptHcSum (dm ++ [(k, v)]) = deptHcSum dm + v.departmentHeadcount := by
  simp [deptHcSum, mapValues]

theorem deptHcSum_map_replaceIf {dm : List (Option String × Department)}
    {k : Option String} {d : Department} (v : Department)
    (hnd : nodupKeys dm) (h : mapGet dm k = some d) :
    deptHcSum (dm.map (replaceIf k v))
      = deptHcSum dm - d.departmentHeadcount + v.departmentHeadcount := by
  induction dm with
  | nil => simp [mapGet] at h
  | cons p t ih =>
    rw [mapGet_cons] at h
    have hndc : p.1 ∉ mapKeys t ∧ nodupKeys t := by
      unfold nodupKeys mapKeys at hnd
      rw [List.map_cons, List.nodup_cons] at hnd
      exact hnd
    rw [List.map_cons, deptHcSum_cons, deptHcSum_cons]
    by_cases hp : p.1 = k
    · rw [if_pos hp] at h
      have hv : p.2 = d := Option.some.inj h
      have hnk : mapHasKey t k = false := by
        cases hb : mapHasKey t k with
        | false => rfl
        | true => exact absurd (hp ▸ (mapHasKey_eq_mem_keys t k).mp hb) hndc.1
      rw [map_replaceIf_of_not_hasKey v hnk]
      unfold replaceIf
      rw [if_pos hp, ← hv]
      ring
    · rw [if_neg hp] at h
      rw [ih hndc.2 h]
      unfold replaceIf
      rw [if_neg hp]
      ring

theorem deptHcSum_mapSet_some {dm : List (Option String × Department)}
    {k : Option String} {d : Department} (v : Department)
    (hnd : nodupKeys dm) (h : mapGet dm k = some d) :
    deptHcSum (mapSet dm k v)
      = deptHcSum dm - d.departmentHeadcount + v.departmentHeadcount := by
  unfold mapSet
  rw [if_pos (mapHasKey_of_mapGet_eq_some h)]
  exact deptHcSum_map_replaceIf v hnd h

theorem nodupKeys_bucketEnsure (dm : List (Option String × Department))
    (k : Option String) (hnd : nodupKeys dm) : nodupKeys (bucketEnsure dm k) := by
  unfold bucketEnsure
  split
  · exact hnd
  · exact nodupKeys_mapSet _ _ hnd

theorem nodupKeys_bucketPair (dm : List (Option String × Department))
    (p : Option String × Int) (hnd : nodupKeys dm) : nodupKeys (bucketPair dm p) := by
  rw [bucketPair_eq]
  exact nodupKeys_mapSet _ _ (nodupKeys_bucketEnsure dm p.1 hnd)

theorem nodupKeys_bucketAll :
    ∀ (ps : List (Option String × Int)) (dm : List (Option String × Department)),
      nodupKeys dm → nodupKeys (bucketAll dm ps)
  | [], _, hnd => hnd
  | p :: ps, dm, hnd => nodupKeys_bucketAll ps (bucketPair dm p) (nodupKeys_bucketPair dm p hnd)

theorem deptHcSum_bucketPair (dm : List (Option String × Department))
    (p : Option String × Int) (hnd : nodupKeys dm) :
    deptHcSum (bucketPair dm p) = deptHcSum dm + 1 := by
  rw [bucketPair_eq]
  cases hg : mapGet dm p.1 with
  | some d =>
    have hb : mapHasKey dm p.1 = true := mapHasKey_of_mapGet_eq_some hg
    rw [show bucketEnsure dm p.1 = dm by unfold bucketEnsure; rw [if_pos hb]]
    rw [deptHcSum_mapSet_some _ hnd hg]
    simp only [Option.getD_some]
    omega
  | none =>
    have hb : mapHasKey dm p.1 = false := mapHasKey_eq_false_of_mapGet_eq_none hg
    have hens : bucketEnsure dm p.1 = dm ++ [(p.1, freshDept p.1)] := by
      unfold bucketEnsure mapSet
      rw [if_neg (by rw [hb]; simp), if_neg (by rw [hb]; simp)]
    have hget2 : mapGet (dm ++ [(p.1, freshDept p.1)]) p.1 = some (freshDept p.1) := by
      rw [mapGet_append_right _ hb, mapGet_cons]
      simp
    have hnd2 : nodupKeys (dm ++ [(p.1, freshDept p.1)]) := by
      rw [← hens]
      exact nodupKeys_bucketEnsure dm p.1 hnd
    rw [hens, deptHcSum_mapSet_some _ hnd2 hget2, deptHcSum_append_single]
    simp only [Option.getD_none, freshDept]
    omega

theorem deptHcSum_bucketAll :
    ∀ (ps : List (Option String × Int)) (dm : List (Option String × Department)),
      nodupKeys dm → deptHcSum (bucketAll dm ps) = deptHcSum dm + (ps.length : Int)
  | [], dm, _ => by simp [bucketAll]
  | p :: ps, dm, hnd => by
    show deptHcSum (bucketAll (bucketPair dm p) ps) = _
    rw [deptHcSum_bucketAll ps (bucketPair dm p) (nodupKeys_bucketPair dm p hnd),
      deptHcSum_bucketPair dm p hnd, List.length_cons]
    push_cast
    ring

theorem deptHcSum_avgPass (dm : List (Option String × Department)) :
    deptHcSum (avgPass dm) = deptHcSum dm := by
  unfold deptHcSum avgPass mapValues
  rw [List.map_map, List.map_map, List.map_map]
  rfl

theorem realSum_eq_deptHcSum {dm : List (Option String × Department)}
    (h : some "all" ∉ mapKeys dm) : realDeptHeadcountSum dm = deptHcSum dm := by
  unfold realDeptHeadcountSum deptHcSum mapValues
  rw [List.filter_eq_self.mpr (by
    intro p hp
    simp only [decide_eq_true_eq]
    intro hk
    exact h (hk ▸ List.mem_map_of_mem _ hp))]
  rw [List.map_map]
  rfl

theorem realSum_append_all (dm : List (Option String × Department)) (v : Department) :
    realDeptHeadcountSum (dm ++ [(some "all", v)]) = realDeptHeadcountSum dm := by
  unfold realDeptHeadcountSum
  rw [List.filter_append]
  simp

theorem length_empDeptTenure (m : List (String × Employee)) :
    (empDeptTenure m).length = m.length := by
  simp [empDeptTenure, mapValues]

/-! ## Unpacking a successful load -/

theorem loadData_success_eq {st : CacheState} {items : List RowItem} {now : Int}
    {st' : CacheState} (h : loadData st (.ok items) now = (st', .success)) :
    (insRows st.employeeData items now).2 = none ∧
    st' = commitPasses st (insRows st.employeeData items now).1 := by
  have h2 : loadDataRows st items now = (st', .success) := h
  unfold loadDataRows at h2
  cases hins : (insRows st.employeeData items now).2 with
  | some msg =>
    rw [hins] at h2
    exact LoadResult.noConfusion (Prod.ext_iff.mp h2).2
  | none =>
    rw [hins] at h2
    exact ⟨rfl, (Prod.ext_iff.mp h2).1.symm⟩

theorem allOk_of_insRows_none :
    ∀ (items : List RowItem) (m : List (String × Employee)) (now : Int),
      (insRows m items now).2 = none → allOk items
  | [], _, _, _ => trivial
  | .ok _ :: rest, _, now, h => allOk_of_insRows_none rest _ now h
  | .bad _ :: _, _, _, h => Option.noConfusion h

theorem mapGet_reportsPass_inv {m : List (String × Employee)} {g : String} {emp : Employee}
    (h : mapGet (reportsPass m) g = some emp) :
    ∃ e0, mapGet m g = some e0
      ∧ emp = { e0 with reportsToCount := some (countReports m e0.profiles_email) } := by
  unfold reportsPass at h
  rw [mapGet_map_entry] at h
  cases hf : m.find? (fun p => p.1 = g) with
  | none =>
    rw [hf] at h
    exact Option.noConfusion h
  | some p =>
    rw [hf] at h
    refine ⟨p.2, ?_, (Option.some.inj h).symm⟩
    unfold mapGet
    rw [hf]
    rfl

theorem countReports_reportsPass (m : List (String × Employee)) (email : String) :
    countReports (reportsPass m) email = countReports m email := by
  unfold countReports reportsPass mapValues
  rw [List.map_map, List.countP_map, List.countP_map]
  rfl

theorem jsOrFalse_ne_true {o : Option String} (h : o ≠ some "true") :
    jsOrFalse o ≠ "true" := by
  cases o with
  | none => simp [jsOrFalse]
  | some s =>
    by_cases hs : s = ""
    · simp [jsOrFalse, hs]
    · simp only [jsOrFalse, if_neg hs]
      exact fun he => h (he ▸ rfl)

theorem mem_insertSorted {α : Type} {le : α → α → Bool} {a x : α} :
    ∀ {l : List α}, x ∈ insertSorted le a l → x = a ∨ x ∈ l
  | [], h => Or.inl (List.mem_singleton.mp h)
  | b :: t, h => by
    unfold insertSorted at h
    split at h
    · rcases List.mem_cons.mp h with h1 | h2
      · exact Or.inl h1
      · exact Or.inr h2
    · rcases List.mem_cons.mp h with h1 | h2
      · exact Or.inr (h1 ▸ List.mem_cons_self b t)
      · rcases mem_insertSorted h2 with h3 | h4
        · exact Or.inl h3
        · exact Or.inr (List.mem_cons_of_mem b h4)

theorem mem_sortByLe {α : Type} {le : α → α → Bool} {x : α} :
    ∀ {l : List α}, x ∈ sortByLe le l → x ∈ l
  | [], h => absurd h (List.not_mem_nil x)
  | a :: t, h => by
    unfold sortByLe at h
    rcases mem_insertSorted h with h1 | h2
    · exact h1 ▸ List.mem_cons_self a t
    · exact List.mem_cons_of_mem a (mem_sortByLe h2)

/-! ## Claim C1 -/

/-- Claim C1 (`code_bug` evidence): `loadData` does **not** leave the maps
unchanged on every failure.  Loading a report whose second row is `null` from
the empty state returns the error object, yet the first row stays committed in
`employeeData` — the state differs from the pre-call empty state. -/
theorem loadData_failure_partial_commit :
    (loadData emptyState (.ok badItems) nowW).2
        = .failure "Failed to load employee data: TypeError: Cannot read properties of null"
      ∧ mapGet (loadData emptyState (.ok badItems) nowW).1.employeeData "g1"
        = some (mkEmployee rowA nowW)
      ∧ (loadData emptyState (.ok badItems) nowW).1 ≠ emptyState :=
  ⟨by decide, by decide, by decide⟩

/-! ## Claim C3 -/

/-- Claim C3: every employee record a successful `loadData` produces (loading
into an empty employee map) carries
`tenureInMonths = floor((end − start) / (msPerDay · 30.44))` and
`tenureInYears = floor((end − start) / (msPerDay · 365.25))`, where `end` is
the departure date when present and otherwise the load-time instant, taken
from the row that produced the record. -/
theorem loadData_tenure_formula (items : List RowItem) (now : Int)
    (dm0 : List (Option String × Department)) (st' : CacheState)
    (h : loadData { employeeData := [], departments := dm0 } (.ok items) now
         = (st', .success)) :
    ∀ g emp, mapGet st'.employeeData g = some emp →
      ∃ r, RowItem.ok r ∈ items ∧ r.profiles_guid = g ∧
        emp.tenureInMonths
          = specTenureMonths (r.profiles_departure_date.getD now - r.profiles_start_date) ∧
        emp.tenureInYears
          = specTenureYears (r.profiles_departure_date.getD now - r.profiles_start_date) := by
  obtain ⟨hins, hst⟩ := loadData_success_eq h
  intro g emp hget
  rw [hst] at hget
  have hget' : mapGet (reportsPass (insRows [] items now).1) g = some emp := hget
  obtain ⟨e0, hget0, hemp⟩ := mapGet_reportsPass_inv hget'
  obtain hmem := mem_of_mapGet_eq_some hget0
  rcases mem_insRows now items [] (g, e0) hmem with hnil | ⟨r, hr, hg, hv⟩
  · exact absurd hnil (List.not_mem_nil _)
  · refine ⟨r, hr, hg.symm, ?_, ?_⟩
    · rw [hemp]
      show e0.tenureInMonths = _
      rw [show e0 = mkEmployee r now from hv]
      show tenureMonthsOf _ = _
      exact tenureMonthsOf_spec _
    · rw [hemp]
      show e0.tenureInYears = _
      rw [show e0 = mkEmployee r now from hv]
      show tenureYearsOf _ = _
      exact tenureYearsOf_spec _

/-- Witness for C3 at the concrete load `stLoaded`. -/
theorem loadData_tenure_formula_witness :
    ∃ emp, mapGet stLoaded.employeeData "g1" = some emp ∧
      ∃ r, RowItem.ok r ∈ goodItems ∧ r.profiles_guid = "g1" ∧
        emp.tenureInMonths
          = specTenureMonths (r.profiles_departure_date.getD nowW - r.profiles_start_date) ∧
        emp.tenureInYears
          = specTenureYears (r.profiles_departure_date.getD nowW - r.profiles_start_date) :=
  ⟨empA, by decide,
    loadData_tenure_formula goodItems nowW [] stLoaded (by decide) "g1" empA (by decide)⟩

/-! ## Claim C4 -/

/-- Counterexample to C4 as stated: a start date in the future of the load
instant yields a negative `tenureInMonths` (here `-2`). -/
theorem tenure_negative_on_future_start :
    (mapGet (loadData emptyState (.ok [.ok rowFuture]) 0).1.employeeData "g1").map
        Employee.tenureInMonths = some (-2)
      ∧ ((-2 : Int) < 0) :=
  ⟨by decide, by decide⟩

/-- Claim C4 as amended: the derived tenures are integers by construction, and
they are non-negative for every employee whose start date does not lie after
the reference instant (departure date if present, else the load instant). -/
theorem loadData_tenure_nonneg (items : List RowItem) (now : Int)
    (dm0 : List (Option String × Department)) (st' : CacheState)
    (h : loadData { employeeData := [], departments := dm0 } (.ok items) now
         = (st', .success))
    (hstart : ∀ r, RowItem.ok r ∈ items →
        r.profiles_start_date ≤ r.profiles_departure_date.getD now) :
    ∀ g emp, mapGet st'.employeeData g = some emp →
      0 ≤ emp.tenureInMonths ∧ 0 ≤ emp.tenureInYears := by
  obtain ⟨hins, hst⟩ := loadData_success_eq h
  intro g emp hget
  rw [hst] at hget
  have hget' : mapGet (reportsPass (insRows [] items now).1) g = some emp := hget
  obtain ⟨e0, hget0, hemp⟩ := mapGet_reportsPass_inv hget'
  obtain hmem := mem_of_mapGet_eq_some hget0
  rcases mem_insRows now items [] (g, e0) hmem with hnil | ⟨r, hr, hg, hv⟩
  · exact absurd hnil (List.not_mem_nil _)
  · have hd : 0 ≤ r.profiles_departure_date.getD now - r.profiles_start_date := by
      have := hstart r hr
      omega
    constructor
    · rw [hemp]
      show 0 ≤ e0.tenureInMonths
      rw [show e0 = mkEmployee r now from hv]
      exact tenureMonthsOf_nonneg hd
    · rw [hemp]
      show 0 ≤ e0.tenureInYears
      rw [show e0 = mkEmployee r now from hv]
      exact tenureYearsOf_nonneg hd

/-- Witness for the amended C4 at the concrete load `stLoaded`. -/
theorem loadData_tenure_nonneg_witness :
    ∃ emp, mapGet stLoaded.employeeData "g1" = some emp ∧
      0 ≤ emp.tenureInMonths ∧ 0 ≤ emp.tenureInYears :=
  ⟨empA, by decide,
    loadData_tenure_nonneg goodItems nowW [] stLoaded (by decide)
      (by
        intro r hr
        cases hr with
        | head => decide
        | tail _ hr2 =>
          cases hr2 with
          | head => decide
          | tail _ hr3 => exact absurd hr3 (List.not_mem_nil _))
      "g1" empA (by decide)⟩

/-! ## Claim C5 -/

/-- Claim C5: after a successful `loadData`, every employee's stored
`reportsToCount` equals the number of employee records in the resulting
snapshot whose manager-email field strictly equals this employee's email
(a self-match counts, as the scan runs over all employees). -/
theorem loadData_reportsToCount (st : CacheState) (items : List RowItem) (now : Int)
    (st' : CacheState) (h : loadData st (.ok items) now = (st', .success)) :
    ∀ g emp, mapGet st'.employeeData g = some emp →
      emp.reportsToCount = some (countReports st'.employeeData emp.profiles_email) := by
  obtain ⟨hins, hst⟩ := loadData_success_eq h
  intro g emp hget
  rw [hst] at hget ⊢
  have hget' : mapGet (reportsPass (insRows st.employeeData items now).1) g = some emp := hget
  obtain ⟨e0, hget0, hemp⟩ := mapGet_reportsPass_inv hget'
  show emp.reportsToCount
    = some (countReports (reportsPass (insRows st.employeeData items now).1)
        emp.profiles_email)
  rw [countReports_reportsPass, hemp]

/-- Witness for C5 at the concrete load `stLoaded`. -/
theorem loadData_reportsToCount_witness :
    ∃ emp, mapGet stLoaded.employeeData "g1" = some emp ∧
      emp.reportsToCount = some (countReports stLoaded.employeeData emp.profiles_email) :=
  ⟨empA, by decide,
    loadData_reportsToCount emptyState goodItems nowW stLoaded (by decide) "g1" empA
      (by decide)⟩

/-! ## Claim C2 -/

/-- Counterexample to C2 as stated: `getDepartments` writes the recomputed
headcounts into the **shared** department records.  On a snapshot whose only
employee has departed (default `includePastEmployees`), the department map
after the call differs from the map before it. -/
theorem getDepartments_mutates_departments :
    (getDepartments stDeparted emptyRequest).1.departments ≠ stDeparted.departments := by
  decide

theorem getEmployee_fst (st : CacheState) (e : Request) : (getEmployee st e).1 = st := by
  unfold getEmployee
  split
  · rfl
  · rename_i s heq
    cases mapGet st.employeeData s <;> rfl

theorem getDepartmentByName_fst (st : CacheState) (e : Request) :
    (getDepartmentByName st e).1 = st := by
  unfold getDepartmentByName
  cases e.departmentName with
  | none =>
    show (getDepartmentByNameUndef st e).1 = st
    unfold getDepartmentByNameUndef
    cases findDeptUndefinedName st.departments with
    | error msg => rfl
    | ok o =>
      cases o with
      | none => rfl
      | some d => rfl
  | some nm =>
    show (getDepartmentByNameNamed st e nm).1 = st
    unfold getDepartmentByNameNamed
    cases findDeptByName st.departments nm with
    | none => rfl
    | some d => rfl

/-- Claim C2 as amended: `getEmployee`, `getEmployees`, `getDepartment` and
`getDepartmentByName` leave both maps unchanged for every snapshot and request;
`getDepartments` leaves the employee map unchanged, but its returned state
carries the in-place recount of every department record's
`departmentHeadcount`. -/
theorem read_ops_frame (st : CacheState) (e : Request) (now : Int) :
    (getEmployee st e).1 = st ∧ (getEmployees st e now).1 = st ∧
    (getDepartment st e).1 = st ∧ (getDepartmentByName st e).1 = st ∧
    (getDepartments st e).1.employeeData = st.employeeData :=
  ⟨getEmployee_fst st e, rfl, rfl, getDepartmentByName_fst st e, rfl⟩

/-! ## Claim C8 -/

/-- Claim C8: when past employees are not included, every department record in
a `departments` list returned by `getDepartments` has a strictly positive
(recomputed) headcount — the zero-headcount filter runs before the response is
built. -/
theorem getDepartments_no_zero_headcount (st : CacheState) (e : Request)
    (st'' : CacheState) (l : List DepartmentResponse)
    (hinc : e.includePastEmployees ≠ some "true")
    (h : getDepartments st e = (st'', .departmentsR l)) :
    ∀ d ∈ l, 0 < d.departmentHeadcount := by
  have hb : decide (jsOrFalse e.includePastEmployees = "true") = false :=
    decide_eq_false (jsOrFalse_ne_true hinc)
  have hresp := (Prod.ext_iff.mp h).2
  unfold getDepartments at hresp
  rw [hb] at hresp
  unfold departmentsResponse at hresp
  split at hresp
  · exact Response.noConfusion hresp
  · split at hresp
    · exact Response.noConfusion hresp
    · have hl : (sortByLe deptNameLe (filteredDepts (recountedDepts st false) false)).map
          deptToResponse = l := by
        injection hresp
      intro d hd
      rw [← hl] at hd
      rcases List.mem_map.mp hd with ⟨d0, hd0, hdr⟩
      have hmem := mem_sortByLe hd0
      unfold filteredDepts at hmem
      simp only [Bool.false_eq_true, if_false] at hmem
      have := (List.mem_filter.mp hmem).2
      rw [← hdr]
      exact of_decide_eq_true this

/-- Witness for C8 at the concrete load `stLoaded`. -/
theorem getDepartments_no_zero_headcount_witness :
    0 < (DepartmentResponse.mk (some "D") (some "D") 2 (some 4)).departmentHeadcount :=
  getDepartments_no_zero_headcount stLoaded emptyRequest
    (getDepartments stLoaded emptyRequest).1
    [DepartmentResponse.mk (some "D") (some "D") 2 (some 4)]
    (by decide) (by decide) _ (List.mem_singleton.mpr rfl)

/-! ## Claim C10 -/

/-- Claim C10: when `getDepartmentByName` matches a department (by
case-insensitive name or strict id) and the employee scan counts nobody for it,
it still returns a well-formed department payload with
`averageTenureInMonths = 0` — the division is guarded, no failure occurs. -/
theorem getDepartmentByName_zero_count (st : CacheState) (e : Request) (nm : String)
    (d : Department)
    (hnm : e.departmentName = some nm)
    (hfind : findDeptByName st.departments nm = some d)
    (hcnt : (deptTally st.employeeData d.id
        (decide (jsOrFalse e.includePastEmployees = "true"))).1 = 0) :
    (getDepartmentByName st e).2 = .departmentR
      { id := d.id, name := d.name, departmentHeadcount := 0,
        averageTenureInMonths := some 0 } := by
  unfold getDepartmentByName
  rw [hnm]
  show (getDepartmentByNameNamed st e nm).2 = _
  unfold getDepartmentByNameNamed
  rw [hfind]
  show deptByNameResponse st e d = _
  simp only [deptByNameResponse]
  rw [hcnt, if_neg (lt_irrefl 0)]

/-- Witness for C10: department `"D"` matched via the lower-case name `"d"`
on a snapshot whose only member has departed. -/
theorem getDepartmentByName_zero_count_witness :
    (getDepartmentByName stDeparted reqD).2 = .departmentR
      { id := some "D", name := some "D", departmentHeadcount := 0,
        averageTenureInMonths := some 0 } :=
  getDepartmentByName_zero_count stDeparted reqD "d"
    { id := some "D", name := some "D", departmentHeadcount := 1,
      totalTenureInMonths := some 1, averageTenureInMonths := some 1 }
    (by decide) (by decide) (by decide)

/-! ## Claim C9 -/

/-- Counterexample to C9 as stated: routing `employees/abc` produces the
`{error, status}` pair with status `500` (the generic catch handler), not
`400`. -/
theorem malformed_employee_id_gets_500 :
    respStatus (doGet emptyState 0 (.error "network down") 0 reqBadId).2 = some 500
      ∧ respStatus (doGet emptyState 0 (.error "network down") 0 reqBadId).2 ≠ some 400 :=
  ⟨by decide, by decide⟩

theorem handleRoute_malformed_id (st1 : CacheState) (now : Int) (e : Request)
    (path eid : String)
    (hstarts : strStartsWith path "employees/" = true)
    (heid : strDrop path 10 = eid)
    (hbad : eid = "" ∨ jsStringIsNum eid = false) :
    (handleRoute st1 now e path).2 = .errorR ("Invalid employeeId: " ++ eid) 500 := by
  unfold handleRoute
  simp only [hstarts, heid, if_true]
  rw [if_pos hbad]
  rfl

/-- Claim C9 as amended: for every request whose path starts with
`employees/` and whose trailing segment is empty or non-numeric (in the
`isNaN` sense), `doGet` answers with the `{error, status}` pair of the generic
catch handler — status `500`, message `Invalid employeeId: …` — regardless of
the cache state or any reload the request triggers.  Status `400` is used only
for requests with no path at all. -/
theorem doGet_malformed_employee_id (st : CacheState) (lastRefresh : Int)
    (fetch : Except String (List RowItem)) (now : Int) (e : Request)
    (path eid : String)
    (hpath : e.pathInfo = some path)
    (hstarts : strStartsWith path "employees/" = true)
    (heid : strDrop path 10 = eid)
    (hbad : eid = "" ∨ jsStringIsNum eid = false) :
    (doGet st lastRefresh fetch now e).2 = .errorR ("Invalid employeeId: " ++ eid) 500 := by
  unfold doGet
  rw [hpath]
  exact handleRoute_malformed_id _ now e path eid hstarts heid hbad

/-- Witness for the amended C9 on the concrete request `employees/abc`. -/
theorem doGet_malformed_employee_id_witness :
    (doGet emptyState 0 (.error "network down") 0 reqBadId).2
      = .errorR ("Invalid employeeId: " ++ "abc") 500 :=
  doGet_malformed_employee_id emptyState 0 (.error "network down") 0 reqBadId
    "employees/abc" "abc" (by decide) (by decide) (by decide) (Or.inr (by decide))

/-! ## Claim C6 -/

/-- Counterexample to C6 as stated: the invariant holds right after the load,
but it is *not* preserved by the read operation `getDepartments`, which
recounts every record in place — the `'all'` record's headcount is recomputed
against its `undefined` id and drops to `0`. -/
theorem headcount_invariant_broken_by_getDepartments :
    headcountInvariant stLoaded
      ∧ ¬ headcountInvariant (getDepartments stLoaded emptyRequest).1 :=
  ⟨by decide, by decide⟩

theorem empDeptTenure_dept_ne_all {items : List RowItem} {now : Int}
    (hall : ∀ r, RowItem.ok r ∈ items → r.profiles_category_200009617 ≠ some "all") :
    ∀ p ∈ empDeptTenure (reportsPass (insRows [] items now).1), p.1 ≠ some "all" := by
  intro p hp
  rw [empDeptTenure_reportsPass] at hp
  unfold empDeptTenure mapValues at hp
  rw [List.map_map] at hp
  rcases List.mem_map.mp hp with ⟨q, hq, hproj⟩
  rcases mem_insRows now items [] q hq with hnil | ⟨r, hr, _, hv⟩
  · exact absurd hnil (List.not_mem_nil _)
  · rw [← hproj]
    show (q.2.profiles_category_200009617, q.2.tenureInMonths).1 ≠ some "all"
    rw [show q.2 = mkEmployee r now from hv]
    exact hall r hr

/-- Claim C6 as amended: after a successful `loadData` from empty maps, on a
report whose rows never carry the department code literally equal to `"all"`,
the real records' headcounts sum to the `'all'` record's headcount and both
equal the employee count; the invariant is preserved by `getEmployee`,
`getEmployees`, `getDepartment` and `getDepartmentByName`, but **not** by
`getDepartments` (see the counterexample). -/
theorem headcountInvariant_deptPasses (m2 : List (String × Employee))
    (hpairs : ∀ p ∈ empDeptTenure m2, p.1 ≠ some "all") :
    (mapGet (deptPasses [] m2) (some "all")).map Department.departmentHeadcount
        = some (realDeptHeadcountSum (deptPasses [] m2))
      ∧ realDeptHeadcountSum (deptPasses [] m2) = (m2.length : Int) := by
  unfold deptPasses
  have h1 : mapGet (bucketAll [] (empDeptTenure m2)) (some "all") = none :=
    mapGet_bucketAll_not_mem _ [] (some "all") hpairs
  have h2 : mapGet (avgPass (bucketAll [] (empDeptTenure m2))) (some "all") = none := by
    rw [mapGet_avgPass, h1]
    rfl
  have h3 : mapHasKey (avgPass (bucketAll [] (empDeptTenure m2))) (some "all") = false :=
    mapHasKey_eq_false_of_mapGet_eq_none h2
  have hnotmem : some "all" ∉ mapKeys (avgPass (bucketAll [] (empDeptTenure m2))) := by
    intro hmem
    rw [(mapHasKey_eq_mem_keys _ _).mpr hmem] at h3
    exact Bool.noConfusion h3
  have happ : mapSet (avgPass (bucketAll [] (empDeptTenure m2))) (some "all")
      (allRecord (deptHcSum (avgPass (bucketAll [] (empDeptTenure m2)))))
      = avgPass (bucketAll [] (empDeptTenure m2))
        ++ [(some "all",
             allRecord (deptHcSum (avgPass (bucketAll [] (empDeptTenure m2)))))] := by
    unfold mapSet
    rw [if_neg (by rw [h3]; simp)]
  rw [happ]
  constructor
  · rw [mapGet_append_right _ h3, mapGet_cons]
    simp only [if_pos]
    rw [realSum_append_all, realSum_eq_deptHcSum hnotmem]
    rfl
  · rw [realSum_append_all, realSum_eq_deptHcSum hnotmem, deptHcSum_avgPass,
      deptHcSum_bucketAll _ [] (by simp [nodupKeys, mapKeys]), length_empDeptTenure]
    show (0 : Int) + _ = _
    rw [zero_add]

theorem headcount_invariant_after_load (items : List RowItem) (now : Int)
    (st' : CacheState)
    (h : loadData emptyState (.ok items) now = (st', .success))
    (hall : ∀ r, RowItem.ok r ∈ items → r.profiles_category_200009617 ≠ some "all") :
    headcountInvariant st'
      ∧ ∀ (e : Request) (now2 : Int),
          headcountInvariant (getEmployee st' e).1
            ∧ headcountInvariant (getEmployees st' e now2).1
            ∧ headcountInvariant (getDepartment st' e).1
            ∧ headcountInvariant (getDepartmentByName st' e).1 := by
  obtain ⟨hins, hst⟩ := loadData_success_eq h
  have hmain : headcountInvariant st' := by
    rw [hst]
    have hlem := headcountInvariant_deptPasses (reportsPass (insRows [] items now).1)
      (empDeptTenure_dept_ne_all hall)
    show (mapGet (deptPasses [] (reportsPass (insRows [] items now).1)) (some "all")).map
          Department.departmentHeadcount
        = some (realDeptHeadcountSum (deptPasses [] (reportsPass (insRows [] items now).1)))
      ∧ realDeptHeadcountSum (deptPasses [] (reportsPass (insRows [] items now).1))
        = ((reportsPass (insRows [] items now).1).length : Int)
    exact hlem
  refine ⟨hmain, ?_⟩
  intro e now2
  rw [getEmployee_fst, getDepartmentByName_fst]
  exact ⟨hmain, hmain, hmain, hmain⟩

/-- Witness for the amended C6 at the concrete load `stLoaded`. -/
theorem headcount_invariant_after_load_witness : headcountInvariant stLoaded :=
  (headcount_invariant_after_load goodItems nowW stLoaded (by decide)
    (by
      intro r hr
      cases hr with
      | head => decide
      | tail _ hr2 =>
        cases hr2 with
        | head => decide
        | tail _ hr3 => exact absurd hr3 (List.not_mem_nil _))).1

/-! ## Claim C7 -/

theorem deptPasses_avg_stable (m2 m2' : List (String × Employee))
    (hps : empDeptTenure m2' = empDeptTenure m2) (k : Option String)
    (hk : k ≠ some "all") :
    ∀ d2, mapGet (deptPasses (deptPasses [] m2) m2') k = some d2 →
      ∃ d1, mapGet (deptPasses [] m2) k = some d1
        ∧ d2.averageTenureInMonths = d1.averageTenureInMonths := by
  have hunfold1 : deptPasses [] m2
      = mapSet (avgPass (bucketAll [] (empDeptTenure m2))) (some "all")
          (allRecord (deptHcSum (avgPass (bucketAll [] (empDeptTenure m2))))) := rfl
  have hunfold2 : deptPasses (deptPasses [] m2) m2'
      = mapSet (avgPass (bucketAll (deptPasses [] m2) (empDeptTenure m2'))) (some "all")
          (allRecord (deptHcSum
            (avgPass (bucketAll (deptPasses [] m2) (empDeptTenure m2'))))) := rfl
  have hbase : mapGet (bucketAll [] (empDeptTenure m2)) k
      = if cntOf (empDeptTenure m2) k = 0 then none
        else some { id := k, name := k,
                    departmentHeadcount := cntOf (empDeptTenure m2) k,
                    totalTenureInMonths := some (sumOf (empDeptTenure m2) k),
                    averageTenureInMonths := none } :=
    mapGet_bucketAll_none (empDeptTenure m2) [] k rfl
  by_cases hc : cntOf (empDeptTenure m2) k = 0
  · have hg1 : mapGet (deptPasses [] m2) k = none := by
      rw [hunfold1, mapGet_mapSet_ne _ _ _ hk, mapGet_avgPass, hbase, if_pos hc]
      rfl
    have hg2 : mapGet (deptPasses (deptPasses [] m2) m2') k = none := by
      rw [hunfold2, mapGet_mapSet_ne _ _ _ hk, mapGet_avgPass, hps,
        mapGet_bucketAll_none (empDeptTenure m2) (deptPasses [] m2) k hg1, if_pos hc]
      rfl
    intro d2 hd2
    rw [hg2] at hd2
    exact Option.noConfusion hd2
  · have h0 : 0 < cntOf (empDeptTenure m2) k :=
      lt_of_le_of_ne (cntOf_nonneg (empDeptTenure m2) k) (Ne.symm hc)
    have hd1eq : mapGet (deptPasses [] m2) k
        = some { id := k, name := k,
                 departmentHeadcount := cntOf (empDeptTenure m2) k,
                 totalTenureInMonths := some (sumOf (empDeptTenure m2) k),
                 averageTenureInMonths :=
                   some (jsRoundDiv (sumOf (empDeptTenure m2) k)
                     (cntOf (empDeptTenure m2) k)) } := by
      rw [hunfold1, mapGet_mapSet_ne _ _ _ hk, mapGet_avgPass, hbase, if_neg hc]
      simp only [Option.map_some', computeAvg]
      rw [if_neg hc]
    have hd2eq : mapGet (deptPasses (deptPasses [] m2) m2') k
        = some { id := k, name := k,
                 departmentHeadcount :=
                   cntOf (empDeptTenure m2) k + cntOf (empDeptTenure m2) k,
                 totalTenureInMonths :=
                   some (sumOf (empDeptTenure m2) k + sumOf (empDeptTenure m2) k),
                 averageTenureInMonths :=
                   some (jsRoundDiv (sumOf (empDeptTenure m2) k)
                     (cntOf (empDeptTenure m2) k)) } := by
      rw [hunfold2, mapGet_mapSet_ne _ _ _ hk, mapGet_avgPass, hps,
        mapGet_bucketAll_some (empDeptTenure m2) (deptPasses [] m2) k _ hd1eq]
      simp only [Option.map_some', incTenure, computeAvg]
      rw [if_neg (by omega), jsRoundDiv_double _ h0]
    intro d2 hd2
    rw [hd2eq] at hd2
    refine ⟨_, hd1eq, ?_⟩
    rw [← Option.some.inj hd2]

/-- Claim C7: loading the same report twice in succession (starting from the
empty state, with a fixed load instant) leaves every real department's
`averageTenureInMonths` unchanged: the second load doubles each department's
headcount and tenure total on the shared records, and the rounded average of
the doubled sums equals the original rounded average. -/
theorem loadData_twice_same_averages (items : List RowItem) (now : Int)
    (st1 st2 : CacheState)
    (h1 : loadData emptyState (.ok items) now = (st1, .success))
    (h2 : loadData st1 (.ok items) now = (st2, .success)) :
    ∀ k, k ≠ some "all" → ∀ d2, mapGet st2.departments k = some d2 →
      ∃ d1, mapGet st1.departments k = some d1
        ∧ d2.averageTenureInMonths = d1.averageTenureInMonths := by
  obtain ⟨hins1, hst1⟩ := loadData_success_eq h1
  obtain ⟨hins2, hst2⟩ := loadData_success_eq h2
  have hok : allOk items := allOk_of_insRows_none items _ now hins1
  have hstripA : stripMap (insRows [] items now).1 = (insRows [] items now).1 := by
    rw [stripMap_insRows now items ([] : List (String × Employee))]
    rfl
  have hstrip : stripMap (insRows (reportsPass (insRows [] items now).1) items now).1
      = (insRows [] items now).1 := by
    rw [stripMap_insRows now items (reportsPass (insRows [] items now).1),
      stripMap_reportsPass, hstripA]
    exact insRows_idem now items [] hok (by simp [nodupKeys, mapKeys])
  have hemp1 : st1.employeeData = reportsPass (insRows [] items now).1 := by
    rw [hst1]
    rfl
  have hps : empDeptTenure (reportsPass (insRows st1.employeeData items now).1)
      = empDeptTenure (reportsPass (insRows [] items now).1) := by
    rw [empDeptTenure_reportsPass, empDeptTenure_reportsPass, hemp1,
      ← empDeptTenure_stripMap (insRows (reportsPass (insRows [] items now).1) items now).1,
      hstrip]
  have hd1 : st1.departments = deptPasses [] (reportsPass (insRows [] items now).1) := by
    rw [hst1]
    rfl
  have hd2 : st2.departments
      = deptPasses (deptPasses [] (reportsPass (insRows [] items now).1))
          (reportsPass (insRows st1.employeeData items now).1) := by
    rw [hst2, show (commitPasses st1 (insRows st1.employeeData items now).1).departments
        = deptPasses st1.departments
            (reportsPass (insRows st1.employeeData items now).1) from rfl, hd1]
  intro k hk d2 hget2
  rw [hd2] at hget2
  obtain ⟨d1, hg1, havg⟩ := deptPasses_avg_stable _ _ hps k hk d2 hget2
  refine ⟨d1, ?_, havg⟩
  rw [hd1]
  exact hg1

/-- Witness for C7: the two-employee department `"D"` has average `4` after
the first load (headcount 2, total 8) and still average `4` after the second
(headcount 4, total 16). -/
theorem loadData_twice_same_averages_witness :
    ∃ d1, mapGet stLoaded.departments (some "D") = some d1
      ∧ (Department.mk (some "D") (some "D") 4 (some 16) (some 4)).averageTenureInMonths
        = d1.averageTenureInMonths :=
  loadData_twice_same_averages goodItems nowW stLoaded stTwice (by decide) (by decide)
    (some "D") (by decide) (Department.mk (some "D") (some "D") 4 (some 16) (some 4))
    (by decide)

end EmployeeDirectory
